import Mathlib

/-!
Shallow embedding of the `ss-uri` Rust crate (src/lib.rs, src/method.rs,
src/sip008.rs) and proofs about it.

Modelling conventions:
* a Rust `String`/`&str` is modelled as a `List Char` of Unicode scalar values;
* bytes are modelled as `Nat` values below 256;
* fallible Rust functions returning `Result` are modelled with `Except`;
* the external `url` and `base64`/`percent_encoding` crates, which the source
  consumes as black boxes, are modelled by executable Lean functions that follow
  their documented behaviour on the input class exercised here (see the doc
  comment of each such definition).
-/

deriving instance DecidableEq for Except

namespace SSURI

/-- Rust strings are modelled as lists of Unicode scalar values. -/
abbrev Str := List Char

/-- Model of Rust `str::trim_start_matches(c)`: drop every leading occurrence of `c`. -/
def trimStartCh (c : Char) (l : Str) : Str := l.dropWhile (· = c)

/-- Model of Rust `str::trim_end_matches(c)`: drop every trailing occurrence of `c`. -/
def trimEndCh (c : Char) (l : Str) : Str := (l.reverse.dropWhile (· = c)).reverse

/-- Model of Rust `str::trim_matches(c)`: drop occurrences of `c` from both ends. -/
def trimCh (c : Char) (l : Str) : Str := trimStartCh c (trimEndCh c l)

/-- Model of Rust `str::split(sep)` for a one-character pattern: the list of
    segments between occurrences of `sep` (always nonempty; `"".split` is `[""]`). -/
def splitCh (sep : Char) : Str → List Str
  | [] => [[]]
  | c :: t =>
    if c = sep then [] :: splitCh sep t
    else List.modifyHead (c :: ·) (splitCh sep t)

/-- Model of Rust `str::contains("=@")` (the only substring containment used by
    the source, in `SSConfig::remove_unsafe_padding`). -/
def containsEqAt : Str → Bool
  | [] => false
  | [_] => false
  | a :: b :: t => (a = '=' && b = '@') || containsEqAt (b :: t)

/-- Model of Rust `str::split("=@")`: segments between non-overlapping, leftmost
    occurrences of the two-character pattern. -/
def splitEqAt : Str → List Str
  | [] => [[]]
  | [c] => [[c]]
  | a :: b :: t =>
    if a = '=' ∧ b = '@' then [] :: splitEqAt t
    else List.modifyHead (a :: ·) (splitEqAt (b :: t))

/-- Model of Rust `Vec::join("@")` (specialised to a one-character separator). -/
def joinCh (sep : Char) : List Str → Str
  | [] => []
  | [x] => x
  | x :: y :: t => x ++ sep :: joinCh sep (y :: t)

/-- Model of Rust `str::find(char)`: index of the first occurrence. -/
def findIdxCh (c : Char) : Str → Option Nat
  | [] => none
  | a :: t => if a = c then some 0 else (findIdxCh c t).map (· + 1)

/-- Model of Rust `str::rfind(char)`: index of the last occurrence. -/
def rfindIdxCh (c : Char) (l : Str) : Option Nat :=
  (findIdxCh c l.reverse).map (fun i => l.length - 1 - i)

/-- The encryption-method registry: closed enumeration of the 19 cipher tokens
    (`src/method.rs`, `enum Method`). -/
inductive Method where
  | Rc4Md5
  | Aes128Gcm
  | Aes192Gcm
  | Aes256Gcm
  | Aes128Cfb
  | Aes192Cfb
  | Aes256Cfb
  | Aes128Ctr
  | Aes192Ctr
  | Aes256Ctr
  | Camellia128Cfb
  | Camellia192Cfb
  | Camellia256Cfb
  | BfCfb
  | Chacha20IetfPoly1305
  | Salsa20
  | Chacha20
  | Chacha20Ietf
  | Xchacha20IetfPoly130
  deriving DecidableEq, Repr

/-- Error type of method parsing (`src/method.rs`, `enum MethodParseError`). -/
inductive MethodParseError where
  | UnknownMethod
  deriving DecidableEq, Repr

/-- Model of `Method::as_str` (`src/method.rs` lines 81-105). -/
def Method.as_str : Method → Str
  | .Rc4Md5 => "rc4-md5".data
  | .Aes128Gcm => "aes-128-gcm".data
  | .Aes192Gcm => "aes-192-gcm".data
  | .Aes256Gcm => "aes-256-gcm".data
  | .Aes128Cfb => "aes-128-cfb".data
  | .Aes192Cfb => "aes-192-cfb".data
  | .Aes256Cfb => "aes-256-cfb".data
  | .Aes128Ctr => "aes-128-ctr".data
  | .Aes192Ctr => "aes-192-ctr".data
  | .Aes256Ctr => "aes-256-ctr".data
  | .Camellia128Cfb => "camellia-128-cfb".data
  | .Camellia192Cfb => "camellia-192-cfb".data
  | .Camellia256Cfb => "camellia-256-cfb".data
  | .BfCfb => "bf-cfb".data
  | .Chacha20IetfPoly1305 => "chacha20-ietf-poly1305".data
  | .Salsa20 => "salsa20".data
  | .Chacha20 => "chacha20".data
  | .Chacha20Ietf => "chacha20-ietf".data
  | .Xchacha20IetfPoly130 => "xchacha20-ietf-poly1305".data

/-- Model of `impl TryFrom<&str> for Method` (`src/method.rs` lines 46-73):
    exact match against the 19 canonical tokens, no trimming, no case folding. -/
def Method.tryFrom (value : Str) : Except MethodParseError Method :=
  if value = "rc4-md5".data then .ok .Rc4Md5
  else if value = "aes-128-gcm".data then .ok .Aes128Gcm
  else if value = "aes-192-gcm".data then .ok .Aes192Gcm
  else if value = "aes-256-gcm".data then .ok .Aes256Gcm
  else if value = "aes-128-cfb".data then .ok .Aes128Cfb
  else if value = "aes-192-cfb".data then .ok .Aes192Cfb
  else if value = "aes-256-cfb".data then .ok .Aes256Cfb
  else if value = "aes-128-ctr".data then .ok .Aes128Ctr
  else if value = "aes-192-ctr".data then .ok .Aes192Ctr
  else if value = "aes-256-ctr".data then .ok .Aes256Ctr
  else if value = "camellia-128-cfb".data then .ok .Camellia128Cfb
  else if value = "camellia-192-cfb".data then .ok .Camellia192Cfb
  else if value = "camellia-256-cfb".data then .ok .Camellia256Cfb
  else if value = "bf-cfb".data then .ok .BfCfb
  else if value = "chacha20-ietf-poly1305".data then .ok .Chacha20IetfPoly1305
  else if value = "salsa20".data then .ok .Salsa20
  else if value = "chacha20".data then .ok .Chacha20
  else if value = "chacha20-ietf".data then .ok .Chacha20Ietf
  else if value = "xchacha20-ietf-poly1305".data then .ok .Xchacha20IetfPoly130
  else .error .UnknownMethod

/-- The list of the 19 canonical method tokens, in source order. -/
def canonicalTokens : List Str :=
  ["rc4-md5".data, "aes-128-gcm".data, "aes-192-gcm".data, "aes-256-gcm".data,
   "aes-128-cfb".data, "aes-192-cfb".data, "aes-256-cfb".data,
   "aes-128-ctr".data, "aes-192-ctr".data, "aes-256-ctr".data,
   "camellia-128-cfb".data, "camellia-192-cfb".data, "camellia-256-cfb".data,
   "bf-cfb".data, "chacha20-ietf-poly1305".data, "salsa20".data,
   "chacha20".data, "chacha20-ietf".data, "xchacha20-ietf-poly1305".data]

/-- Character of the standard base64 alphabet for a sextet value below 64. -/
def b64Char (n : Nat) : Char :=
  if n < 26 then Char.ofNat (65 + n)
  else if n < 52 then Char.ofNat (97 + (n - 26))
  else if n < 62 then Char.ofNat (48 + (n - 52))
  else if n = 62 then '+'
  else '/'

/-- Inverse of `b64Char`: sextet value of an alphabet character, `none` for any
    character outside the standard alphabet. -/
def b64Index (c : Char) : Option Nat :=
  if 'A' ≤ c ∧ c ≤ 'Z' then some (c.toNat - 65)
  else if 'a' ≤ c ∧ c ≤ 'z' then some (c.toNat - 97 + 26)
  else if '0' ≤ c ∧ c ≤ '9' then some (c.toNat - 48 + 52)
  else if c = '+' then some 62
  else if c = '/' then some 63
  else none

/-- Model of `base64::encode` (standard alphabet, with `=` padding), as used by
    the source before it strips the padding itself. Input is a byte list. -/
def b64Encode : List Nat → Str
  | [] => []
  | [a] => [b64Char (a / 4), b64Char (a % 4 * 16), '=', '=']
  | [a, b] => [b64Char (a / 4), b64Char (a % 4 * 16 + b / 16), b64Char (b % 16 * 4), '=']
  | a :: b :: c :: t =>
    b64Char (a / 4) :: b64Char (a % 4 * 16 + b / 16) ::
    b64Char (b % 16 * 4 + c / 64) :: b64Char (c % 64) :: b64Encode t

/-- Decode the padding-free body of a base64 string: groups of four sextets give
    three bytes; a trailing group of two or three sextets gives one or two bytes
    and, matching the crate's strict handling, requires the unused low bits of
    the final sextet to be zero. A single trailing character is invalid. -/
def b64DecodeBody : Str → Option (List Nat)
  | [] => some []
  | [_] => none
  | [c1, c2] =>
    match b64Index c1, b64Index c2 with
    | some s1, some s2 => if s2 % 16 = 0 then some [s1 * 4 + s2 / 16] else none
    | _, _ => none
  | [c1, c2, c3] =>
    match b64Index c1, b64Index c2, b64Index c3 with
    | some s1, some s2, some s3 =>
      if s3 % 4 = 0 then some [s1 * 4 + s2 / 16, s2 % 16 * 16 + s3 / 4] else none
    | _, _, _ => none
  | c1 :: c2 :: c3 :: c4 :: t =>
    match b64Index c1, b64Index c2, b64Index c3, b64Index c4 with
    | some s1, some s2, some s3, some s4 =>
      (b64DecodeBody t).map
        (fun bs => (s1 * 4 + s2 / 16) :: (s2 % 16 * 16 + s3 / 4) :: (s3 % 4 * 64 + s4) :: bs)
    | _, _, _, _ => none

/-- Model of `base64::decode` (standard alphabet): tolerates missing `=`
    padding; when padding is present it must consist of at most two trailing `=`
    completing a four-character group. -/
def b64Decode (l : Str) : Option (List Nat) :=
  let body := trimEndCh '=' l
  let pad := l.length - body.length
  if '=' ∈ body then none
  else if pad = 0 then b64DecodeBody body
  else if pad ≤ 2 ∧ l.length % 4 = 0 then b64DecodeBody body
  else none

/-- UTF-8 encoding of one Unicode scalar value as bytes. -/
def utf8EncodeChar (c : Char) : List Nat :=
  let n := c.toNat
  if n < 0x80 then [n]
  else if n < 0x800 then [0xC0 + n / 64, 0x80 + n % 64]
  else if n < 0x10000 then [0xE0 + n / 4096, 0x80 + n / 64 % 64, 0x80 + n % 64]
  else [0xF0 + n / 262144, 0x80 + n / 4096 % 64, 0x80 + n / 64 % 64, 0x80 + n % 64]

/-- UTF-8 encoding of a string (Rust `String::into_bytes` / `as_bytes`). -/
def utf8Encode (s : Str) : List Nat := s.flatMap utf8EncodeChar

/-- Whether a byte is a UTF-8 continuation byte. -/
def isCont (b : Nat) : Bool := 0x80 ≤ b && b < 0xC0

/-- Decode one UTF-8 sequence at the head of the byte list: the scalar value
    and the number of bytes consumed.  Rejects invalid leading bytes, truncated
    sequences, overlong encodings and surrogates. -/
def utf8Step : List Nat → Option (Char × Nat)
  | [] => none
  | b :: t =>
    if b < 0x80 then some (Char.ofNat b, 1)
    else if b < 0xC2 then none
    else if b < 0xE0 then
      (t.head?).bind fun b2 =>
        if isCont b2 then some (Char.ofNat ((b - 0xC0) * 64 + (b2 - 0x80)), 2) else none
    else if b < 0xF0 then
      (t.head?).bind fun b2 => ((t.drop 1).head?).bind fun b3 =>
        if isCont b2 && isCont b3 then
          if 0x800 ≤ (b - 0xE0) * 4096 + (b2 - 0x80) * 64 + (b3 - 0x80) ∧
              ¬(0xD800 ≤ (b - 0xE0) * 4096 + (b2 - 0x80) * 64 + (b3 - 0x80) ∧
                (b - 0xE0) * 4096 + (b2 - 0x80) * 64 + (b3 - 0x80) < 0xE000) then
            some (Char.ofNat ((b - 0xE0) * 4096 + (b2 - 0x80) * 64 + (b3 - 0x80)), 3)
          else none
        else none
    else if b < 0xF5 then
      (t.head?).bind fun b2 => ((t.drop 1).head?).bind fun b3 => ((t.drop 2).head?).bind
        fun b4 =>
          if isCont b2 && isCont b3 && isCont b4 then
            if 0x10000 ≤ (b - 0xF0) * 262144 + (b2 - 0x80) * 4096 + (b3 - 0x80) * 64 +
                (b4 - 0x80) ∧
                (b - 0xF0) * 262144 + (b2 - 0x80) * 4096 + (b3 - 0x80) * 64 + (b4 - 0x80) <
                  0x110000 then
              some (Char.ofNat ((b - 0xF0) * 262144 + (b2 - 0x80) * 4096 + (b3 - 0x80) * 64 +
                (b4 - 0x80)), 4)
            else none
          else none
    else none

/-- Fuelled worker for strict UTF-8 decoding; every step consumes at least one
    byte, so fuel equal to the byte count suffices. -/
def utf8DecodeF : Nat → List Nat → Option Str
  | _, [] => some []
  | 0, _ :: _ => none
  | fuel + 1, b :: t =>
    match utf8Step (b :: t) with
    | some (c, k) => (utf8DecodeF fuel ((b :: t).drop k)).map (c :: ·)
    | none => none

/-- Model of strict UTF-8 decoding (`String::from_utf8`): decode sequence by
    sequence, failing on the first invalid sequence. -/
def utf8Decode (l : List Nat) : Option Str := utf8DecodeF l.length l

/-- Fuelled worker for lossy UTF-8 decoding: an invalid sequence contributes
    U+FFFD and consumes one byte. -/
def utf8DecodeLossyF : Nat → List Nat → Str
  | _, [] => []
  | 0, _ :: _ => []
  | fuel + 1, b :: t =>
    match utf8Step (b :: t) with
    | some (c, k) => c :: utf8DecodeLossyF fuel ((b :: t).drop k)
    | none => '\uFFFD' :: utf8DecodeLossyF fuel t

/-- Model of lossy UTF-8 decoding (`String::from_utf8_lossy` as used by
    `decode_utf8_lossy`): invalid bytes become U+FFFD and decoding continues. -/
def utf8DecodeLossy (l : List Nat) : Str := utf8DecodeLossyF l.length l

/-- Padding-free base64 encoding (what the source's `trim_end_matches('=')`
    leaves of `b64Encode`); used to state and prove the round-trip lemmas. -/
def b64EncodeNoPad : List Nat → Str
  | [] => []
  | [a] => [b64Char (a / 4), b64Char (a % 4 * 16)]
  | [a, b] => [b64Char (a / 4), b64Char (a % 4 * 16 + b / 16), b64Char (b % 16 * 4)]
  | a :: b :: c :: t =>
    b64Char (a / 4) :: b64Char (a % 4 * 16 + b / 16) ::
    b64Char (b % 16 * 4 + c / 64) :: b64Char (c % 64) :: b64EncodeNoPad t

/-- Everything strictly before the last occurrence of `a` (specification-side
    description of the legacy codec's password slice). -/
def beforeLastCh (a : Char) (l : Str) : Str :=
  (((l.reverse).dropWhile (· ≠ a)).drop 1).reverse

/-- Whether a byte is an ASCII alphanumeric character (the set kept literal by
    the `NON_ALPHANUMERIC` percent-encoding set of the `percent_encoding` crate). -/
def isAlnumByte (b : Nat) : Bool :=
  (48 ≤ b && b ≤ 57) || (65 ≤ b && b ≤ 90) || (97 ≤ b && b ≤ 122)

/-- Uppercase hexadecimal digit for a value below 16. -/
def hexDig (n : Nat) : Char :=
  if n < 10 then Char.ofNat (48 + n) else Char.ofNat (65 + (n - 10))

/-- Lowercase hexadecimal digit for a value below 16. -/
def hexDigLower (n : Nat) : Char :=
  if n < 10 then Char.ofNat (48 + n) else Char.ofNat (97 + (n - 10))

/-- Value of a hexadecimal digit character, either case (`percent_encoding`
    accepts both on decode). -/
def hexVal (c : Char) : Option Nat :=
  if '0' ≤ c ∧ c ≤ '9' then some (c.toNat - 48)
  else if 'A' ≤ c ∧ c ≤ 'F' then some (c.toNat - 65 + 10)
  else if 'a' ≤ c ∧ c ≤ 'f' then some (c.toNat - 97 + 10)
  else none

/-- Model of `percent_encoding::percent_encode(bytes, NON_ALPHANUMERIC)`:
    ASCII alphanumeric bytes stay literal, every other byte becomes a
    percent-escape with uppercase hex digits. -/
def pctEncodeBytes (bs : List Nat) : Str :=
  bs.flatMap fun b =>
    if isAlnumByte b then [Char.ofNat b] else ['%', hexDig (b / 16), hexDig (b % 16)]

/-- Fuelled worker for percent-decoding; each step consumes at least one
    character, so fuel equal to the character count suffices. -/
def pctDecodeBytesF : Nat → Str → List Nat
  | _, [] => []
  | 0, _ :: _ => []
  | fuel + 1, c :: t =>
    if c = '%' then
      match t with
      | c1 :: c2 :: t2 =>
        match hexVal c1, hexVal c2 with
        | some hh, some lo => (hh * 16 + lo) :: pctDecodeBytesF fuel t2
        | _, _ => utf8EncodeChar c ++ pctDecodeBytesF fuel t
      | _ => utf8EncodeChar c ++ pctDecodeBytesF fuel t
    else utf8EncodeChar c ++ pctDecodeBytesF fuel t

/-- Model of `percent_encoding::percent_decode_str`, producing bytes: a `%`
    followed by two hex digits yields that byte, any other character (and a
    `%` not followed by valid hex) passes through as its UTF-8 bytes. -/
def pctDecodeBytes (l : Str) : List Nat := pctDecodeBytesF l.length l

/-- Fuelled worker producing the decimal digits of a number, most significant
    first.  Fuel equal to the number itself always suffices. -/
def natToCharsF : Nat → Nat → Str → Str
  | 0, n, acc => Char.ofNat (48 + n % 10) :: acc
  | fuel + 1, n, acc =>
    if n < 10 then Char.ofNat (48 + n) :: acc
    else natToCharsF fuel (n / 10) (Char.ofNat (48 + n % 10) :: acc)

/-- Decimal rendering of a natural number (Rust `Display` for integers). -/
def natToChars (n : Nat) : Str := natToCharsF n n []

/-- Numeric value of a decimal digit string (helper for integer parsing). -/
def digitsVal (l : Str) : Nat := l.foldl (fun acc c => acc * 10 + (c.toNat - 48)) 0

/-- Model of Rust `str::parse::<u16>`: an optional leading `+`, then one or
    more decimal digits, with an overflow check against 65536. -/
def parseU16 (l : Str) : Option Nat :=
  let body := if l.head? = some '+' then l.tail else l
  if body = [] then none
  else if body.all (fun c => '0' ≤ c ∧ c ≤ '9') then
    if digitsVal body < 65536 then some (digitsVal body) else none
  else none

/-- Host of a proxy configuration: model of `url::Host` — a tagged union of a
    domain name, an IPv4 address (four bytes) and an IPv6 address (eight
    16-bit groups). -/
inductive Host where
  | Domain (s : Str)
  | Ipv4 (a b c d : Nat)
  | Ipv6 (gs : List Nat)
  deriving DecidableEq, Repr

/-- Characters the WHATWG host grammar forbids inside a domain (the url crate
    rejects a host containing any of them). -/
def forbiddenDomainChar (c : Char) : Bool :=
  c.toNat < 0x21 || c = '#' || c = '%' || c = '/' || c = ':' || c = '<' || c = '>' ||
  c = '?' || c = '@' || c = '[' || c = '\\' || c = ']' || c = '^' || c = '|' || c.toNat = 0x7F

/-- ASCII lowercasing of a character (url domain parsing lowercases domains). -/
def asciiLower (c : Char) : Char :=
  if 'A' ≤ c ∧ c ≤ 'Z' then Char.ofNat (c.toNat + 32) else c

/-- Whether a character is a hexadecimal digit. -/
def isHexDigit (c : Char) : Bool := (hexVal c).isSome

/-- Parse one IPv6 group of one to four hex digits. -/
def parseHexGroup (l : Str) : Option Nat :=
  if l ≠ [] ∧ l.length ≤ 4 ∧ l.all isHexDigit then
    some (l.foldl (fun acc c => acc * 16 + ((hexVal c).getD 0)) 0)
  else none

/-- Parse a colon-separated run of IPv6 hex groups (no `::` inside). -/
def parseGroups (l : Str) : Option (List Nat) :=
  if l = [] then some []
  else (splitCh ':' l).mapM parseHexGroup

/-- Locate the first occurrence of `::` in an IPv6 literal, returning the parts
    before and after it. -/
def splitDoubleColon : Str → Option (Str × Str)
  | [] => none
  | [_] => none
  | a :: b :: t =>
    if a = ':' ∧ b = ':' then some ([], t)
    else (splitDoubleColon (b :: t)).map (fun p => (a :: p.1, p.2))

/-- Model of textual IPv6 address parsing (RFC 4291 section 2.2 as implemented
    by the url crate): eight hex groups, optionally compressed with one `::`.
    The embedded-IPv4 trailing form (`::ffff:1.2.3.4`) is not modelled; the
    source never produces it and no claim exercises it. -/
def parseIpv6 (l : Str) : Option (List Nat) :=
  if l.all (fun c => isHexDigit c || c = ':') then
    match splitDoubleColon l with
    | none =>
      match parseGroups l with
      | some gs => if gs.length = 8 then some gs else none
      | none => none
    | some (left, right) =>
      match parseGroups left, parseGroups right with
      | some gl, some gr =>
        if gl.length + gr.length < 8 then
          some (gl ++ List.replicate (8 - gl.length - gr.length) 0 ++ gr)
        else none
      | _, _ => none
  else none

/-- Whether a dot-separated label consists only of decimal digits (the url
    crate then insists the host parse as IPv4). -/
def allDigits (l : Str) : Bool := l ≠ [] && l.all (fun c => '0' ≤ c ∧ c ≤ '9')

/-- Parse a strict dotted-quad IPv4 address: four decimal labels, each below
    256.  (The url crate additionally accepts hex/octal labels and fewer than
    four labels; those forms never round-trip through this library's
    serializers and no claim exercises them.) -/
def parseIpv4 (l : Str) : Option (Nat × Nat × Nat × Nat) :=
  match splitCh '.' l with
  | [a, b, c, d] =>
    if allDigits a && allDigits b && allDigits c && allDigits d &&
       a.length ≤ 3 && b.length ≤ 3 && c.length ≤ 3 && d.length ≤ 3 &&
       decide (digitsVal a < 256) && decide (digitsVal b < 256) &&
       decide (digitsVal c < 256) && decide (digitsVal d < 256) then
      some (digitsVal a, digitsVal b, digitsVal c, digitsVal d)
    else none
  | _ => none

/-- Model of the standalone `url::Host::parse` (used by `SSConfig` for its
    `host` field and by `extract_host`): a bracketed literal parses as IPv6, a
    final all-digit label forces IPv4 parsing, anything else is a domain with
    its ASCII letters lowercased and forbidden characters rejected.  The IDNA
    and percent-decoding steps of the real crate are not modelled; they act as
    the identity on the ASCII hosts this library serializes. -/
def Host.parse (l : Str) : Option Host :=
  if l.head? = some '[' then
    match l with
    | _ :: t =>
      if t.getLast? = some ']' then (parseIpv6 (t.dropLast)).map Host.Ipv6 else none
    | [] => none
  else if l = [] then none
  else if l.any forbiddenDomainChar then none
  else
    let low := l.map asciiLower
    match (splitCh '.' low).getLast? with
    | some lastLabel =>
      if allDigits lastLabel then
        (parseIpv4 low).map (fun p => Host.Ipv4 p.1 p.2.1 p.2.2.1 p.2.2.2)
      else some (Host.Domain low)
    | none => none

/-- Fuelled worker for lowercase hexadecimal rendering. -/
def natToHexF : Nat → Nat → Str → Str
  | 0, n, acc => hexDigLower (n % 16) :: acc
  | fuel + 1, n, acc =>
    if n < 16 then hexDigLower n :: acc
    else natToHexF fuel (n / 16) (hexDigLower (n % 16) :: acc)

/-- Lowercase hexadecimal rendering without leading zeros (one IPv6 group). -/
def natToHexChars (n : Nat) : Str := natToHexF n n []

/-- Length of the run of zero groups at the head of the list. -/
def zeroRunLen : List Nat → Nat
  | 0 :: t => 1 + zeroRunLen t
  | _ => 0

/-- Position and length of the longest (leftmost on ties) run of zero groups. -/
def bestZeroRun : Nat → List Nat → Nat × Nat → Nat × Nat
  | _, [], best => best
  | i, g :: t, best =>
    let l := zeroRunLen (g :: t)
    if best.2 < l then bestZeroRun (i + 1) t (i, l) else bestZeroRun (i + 1) t best

/-- Canonical text of an IPv6 address (model of the standard `Display`
    rendering used by `get_uri_formatted_host`): lowercase hex groups joined by
    colons, with the longest run of at least two zero groups compressed to
    `::`.  The special dotted rendering of IPv4-mapped addresses is not
    modelled. -/
def renderIpv6 (gs : List Nat) : Str :=
  let best := bestZeroRun 0 gs (0, 0)
  if 2 ≤ best.2 then
    joinCh ':' ((gs.take best.1).map natToHexChars) ++
      ':' :: ':' :: joinCh ':' ((gs.drop (best.1 + best.2)).map natToHexChars)
  else joinCh ':' (gs.map natToHexChars)

/-- Model of `SSConfig::get_uri_formatted_host` (src/lib.rs lines 291-297) and
    of the `Display` rendering of `url::Host`: domains and IPv4 render as their
    text, IPv6 renders bracketed. -/
def get_uri_formatted_host (h : Host) : Str :=
  match h with
  | .Domain s => s
  | .Ipv4 a b c d =>
    natToChars a ++ '.' :: natToChars b ++ '.' :: natToChars c ++ '.' :: natToChars d
  | .Ipv6 gs => '[' :: renderIpv6 gs ++ [']']

/-- Valid characters of a URI scheme after the first letter. -/
def isSchemeChar (c : Char) : Bool :=
  c.isAlpha || ('0' ≤ c && c ≤ '9') || c = '+' || c = '-' || c = '.'

/-- Characters the WHATWG URL grammar forbids in an opaque (non-special-scheme)
    host; `/ ? # : @` cannot occur because earlier splits consume them. -/
def forbiddenOpaqueChar (c : Char) : Bool :=
  c.toNat = 0 || c.toNat = 9 || c.toNat = 10 || c.toNat = 13 || c = ' ' ||
  c = '<' || c = '>' || c = '[' || c = '\\' || c = ']' || c = '^' || c = '|'

/-- Result of generic URL parsing: the components the source reads through the
    url crate's accessors.  `username` and `userinfoPassword` are the parts of
    the userinfo before and after its first `:`. -/
structure UrlModel where
  scheme : Str
  username : Str
  userinfoPassword : Option Str
  hostStr : Option Str
  port : Option Nat
  path : Str
  query : Option Str
  fragment : Option Str
  deriving DecidableEq, Repr

/-- Split the host-and-port part of an authority, honouring IPv6 brackets, and
    validate it as the url crate does: bracketed hosts must be valid IPv6
    literals, other hosts must avoid the forbidden code points, the port must
    be decimal and below 2^16, and an empty host cannot carry a port. -/
def parseHostPort (l : Str) : Option (Str × Option Nat) :=
  if l.head? = some '[' then
    match l with
    | [] => none
    | _ :: t =>
      match findIdxCh ']' t with
      | none => none
      | some j =>
        if (parseIpv6 (t.take j)).isSome then
          if t.drop (j + 1) = [] then some ('[' :: t.take j ++ [']'], none)
          else if (t.drop (j + 1)).head? = some ':' then
            let ps := (t.drop (j + 1)).tail
            if ps = [] then some ('[' :: t.take j ++ [']'], none)
            else if ps.all (fun c => '0' ≤ c ∧ c ≤ '9') ∧ digitsVal ps < 65536 then
              some ('[' :: t.take j ++ [']'], some (digitsVal ps))
            else none
          else none
        else none
  else
    match findIdxCh ':' l with
    | none => if l.any forbiddenOpaqueChar then none else some (l, none)
    | some i =>
      let h := l.take i
      let ps := l.drop (i + 1)
      if h = [] then none
      else if h.any forbiddenOpaqueChar then none
      else if ps = [] then some (h, none)
      else if ps.all (fun c => '0' ≤ c ∧ c ≤ '9') ∧ digitsVal ps < 65536 then
        some (h, some (digitsVal ps))
      else none

/-- The part of the WHATWG URL algorithm after the scheme (helper for
    `urlParse`, which models `url::Url::parse`): with a `//` an authority
    holding optional userinfo (up to the last `@`, split at its first `:` into
    username and password), a host and an optional port; then path, `?` query
    and `#` fragment. -/
def urlParseAuthority (scheme : Str) (rest : Str) : Option UrlModel :=
  let afterHash := (findIdxCh '#' rest).elim none (fun j => some (rest.drop (j + 1)))
  let beforeHash := (findIdxCh '#' rest).elim rest (fun j => rest.take j)
  if beforeHash.take 2 = ['/', '/'] then
    let rest2 := beforeHash.drop 2
    let auth := rest2.takeWhile (fun c => ¬(c = '/' ∨ c = '?'))
    let tail2 := rest2.dropWhile (fun c => ¬(c = '/' ∨ c = '?'))
    let path := tail2.takeWhile (· ≠ '?')
    let query := (findIdxCh '?' tail2).elim none (fun j => some (tail2.drop (j + 1)))
    match rfindIdxCh '@' auth with
    | none =>
      (parseHostPort auth).map fun hp =>
        { scheme := scheme, username := [], userinfoPassword := none,
          hostStr := some hp.1, port := hp.2, path := path, query := query,
          fragment := afterHash }
    | some k =>
      let userinfo := auth.take k
      let hostport := auth.drop (k + 1)
      if hostport = [] then none
      else
        (parseHostPort hostport).map fun hp =>
          { scheme := scheme,
            username := (findIdxCh ':' userinfo).elim userinfo (fun j => userinfo.take j),
            userinfoPassword := (findIdxCh ':' userinfo).elim none
              (fun j => some (userinfo.drop (j + 1))),
            hostStr := some hp.1, port := hp.2, path := path, query := query,
            fragment := afterHash }
  else
    let path := beforeHash.takeWhile (· ≠ '?')
    let query := (findIdxCh '?' beforeHash).elim none
      (fun j => some (beforeHash.drop (j + 1)))
    some { scheme := scheme, username := [], userinfoPassword := none,
           hostStr := none, port := none, path := path, query := query,
           fragment := afterHash }

/-- Model of `url::Url::parse` restricted to the behaviour the source relies
    on, following the WHATWG algorithm for non-special schemes: scheme up to
    the first `:` (one letter then scheme characters, lowercased), then the
    authority, path, query and fragment as in `urlParseAuthority`.  Component
    text is kept verbatim (the crate's percent-encoding of some userinfo,
    path and fragment code points is not modelled; it is the identity on every
    string this development feeds through, and parsing composed with the
    percent-decoding the source applies afterwards agrees either way). -/
def urlParse (l : Str) : Option UrlModel :=
  match findIdxCh ':' l with
  | none => none
  | some i =>
    let sch := l.take i
    let rest := l.drop (i + 1)
    if sch = [] then none
    else if ¬sch.head?.any Char.isAlpha then none
    else if ¬sch.all isSchemeChar then none
    else urlParseAuthority (sch.map asciiLower) rest

/-- Known default ports of the WHATWG special schemes
    (`url::Url::port_or_known_default`); no scheme beginning with `ss` has one. -/
def defaultPort (scheme : Str) : Option Nat :=
  if scheme = "http".data then some 80
  else if scheme = "https".data then some 443
  else if scheme = "ws".data then some 80
  else if scheme = "wss".data then some 443
  else if scheme = "ftp".data then some 21
  else none

/-- Model of `url::Url::port_or_known_default`. -/
def UrlModel.portOrKnownDefault (u : UrlModel) : Option Nat :=
  match u.port with
  | some p => some p
  | none => defaultPort u.scheme

/-- Decode one `application/x-www-form-urlencoded` component: `+` becomes a
    space, percent-escapes become bytes, the result is read as lossy UTF-8. -/
def formDecodeComponent (s : Str) : Str :=
  utf8DecodeLossy (pctDecodeBytes (s.map (fun c => if c = '+' then ' ' else c)))

/-- Model of `url::form_urlencoded::parse`: `&`-separated pairs, empty
    segments skipped, each pair split at its first `=` (missing `=` gives an
    empty value), key and value form-decoded. -/
def formParse (l : Str) : List (Str × Str) :=
  (splitCh '&' l).filterMap fun seg =>
    if seg = [] then none
    else
      match findIdxCh '=' seg with
      | some i => some (formDecodeComponent (seg.take i), formDecodeComponent (seg.drop (i + 1)))
      | none => some (formDecodeComponent seg, [])

/-- Lookup in an association list collected into a `HashMap`: on duplicate
    keys the last insertion wins. -/
def lookupLast (k : Str) (ps : List (Str × Str)) : Option Str :=
  ((ps.filter (fun p => p.1 = k)).getLast?).map Prod.snd

/-- Parse errors of the two proxy-config codecs (src/lib.rs `enum SSParseError`). -/
inductive SSParseError where
  | InvalidUrl
  | InvalidProtocol
  | InvalidHost
  | InvalidPort
  | InvalidMethod
  | InvalidPassword
  deriving DecidableEq, Repr

/-- The parsed proxy configuration (src/lib.rs `struct SSConfig`).  The Rust
    `extra` field is a `HashMap`; it is modelled by the association list of
    query pairs (every claim proved here constrains it only through `none`). -/
structure SSConfig where
  host : Host
  port : Nat
  method : Method
  password : Str
  tag : Option Str
  extra : Option (List (Str × Str))
  deriving DecidableEq, Repr

namespace SSConfig

/-- Model of `SSConfig::get_hash` (src/lib.rs lines 275-283): a nonempty tag
    becomes `#` followed by its percent-encoding, otherwise nothing. -/
def get_hash (tag : Option Str) : Str :=
  match tag with
  | some t => if t ≠ [] then '#' :: pctEncodeBytes (utf8Encode t) else []
  | none => []

/-- Model of `SSConfig::encode_user_info` (src/lib.rs lines 270-274):
    unpadded standard base64 of `method:password`. -/
def encode_user_info (m : Method) (password : Str) : Str :=
  trimEndCh '=' (b64Encode (utf8Encode (m.as_str ++ ':' :: password)))

/-- One form-urlencoded output byte (`url::form_urlencoded::Serializer`):
    space becomes `+`; ASCII alphanumerics and `* - . _` stay literal; every
    other byte is percent-escaped. -/
def formEncodeByte (b : Nat) : Str :=
  if b = 32 then ['+']
  else if isAlnumByte b || b = 42 || b = 45 || b = 46 || b = 95 then [Char.ofNat b]
  else ['%', hexDig (b / 16), hexDig (b % 16)]

/-- Model of `SSConfig::encode_query` (src/lib.rs lines 284-290): the
    form-urlencoded serialization of the extra pairs.  The Rust `HashMap`
    iterates in an unspecified order; the model iterates the list in order. -/
def encode_query (extra : List (Str × Str)) : Str :=
  joinCh '&' (extra.map fun p =>
    (utf8Encode p.1).flatMap formEncodeByte ++ '=' :: (utf8Encode p.2).flatMap formEncodeByte)

/-- Model of `SSConfig::to_sip002` (src/lib.rs lines 89-109). -/
def to_sip002 (c : SSConfig) : Str :=
  "ss://".data ++ encode_user_info c.method c.password ++
    '@' :: get_uri_formatted_host c.host ++ ':' :: natToChars c.port ++
    '/' :: (match c.extra with | some q => encode_query q | none => []) ++ get_hash c.tag

/-- Model of `SSConfig::to_legacy_base64_encoded` (src/lib.rs lines 56-70). -/
def to_legacy_base64_encoded (c : SSConfig) : Str :=
  "ss://".data ++
    trimEndCh '=' (b64Encode (utf8Encode
      (c.method.as_str ++ ':' :: c.password ++
        '@' :: get_uri_formatted_host c.host ++ ':' :: natToChars c.port))) ++
    get_hash c.tag

/-- Model of `SSConfig::remove_unsafe_padding` (src/lib.rs lines 256-268): if
    the input contains `=@`, split on every occurrence of it, trim `=` from
    both ends of every segment, and rejoin with `@`. -/
def remove_unsafe_padding (s : Str) : Str :=
  if containsEqAt s then joinCh '@' ((splitEqAt s).map (trimCh '=')) else s

/-- Model of `SSConfig::validate_protocol` (src/lib.rs lines 206-211): the
    scheme must start with `ss`. -/
def validate_protocol (u : UrlModel) : Except SSParseError Unit :=
  if "ss".data.isPrefixOf u.scheme then .ok () else .error .InvalidProtocol

/-- Model of `SSConfig::extract_host` (src/lib.rs lines 212-220): a missing
    host is `InvalidHost`; the host text is re-parsed with `Host::parse`,
    failing with `InvalidUrl`. -/
def extract_host (u : UrlModel) : Except SSParseError Host :=
  match u.hostStr with
  | none => .error .InvalidHost
  | some s =>
    match Host.parse s with
    | some h => .ok h
    | none => .error .InvalidUrl

/-- Model of `SSConfig::extract_port` (src/lib.rs lines 222-227). -/
def extract_port (u : UrlModel) : Except SSParseError Nat :=
  match u.portOrKnownDefault with
  | some p => .ok p
  | none => .error .InvalidPort

/-- Model of `SSConfig::extract_hash` (src/lib.rs lines 229-231): the fragment,
    percent-decoded and read as lossy UTF-8. -/
def extract_hash (fragment : Option Str) : Option Str :=
  fragment.map (fun f => utf8DecodeLossy (pctDecodeBytes f))

/-- Model of `SSConfig::extract_query` (src/lib.rs lines 233-237). -/
def extract_query (u : UrlModel) : List (Str × Str) :=
  formParse (u.query.getD [])

/-- Model of `SSConfig::extract_method_and_password` (src/lib.rs lines
    239-254): base64-decode the userinfo (`InvalidPassword` on base64 or UTF-8
    failure), split the text on every `:`, parse element 0 as the method
    (`InvalidMethod` on failure) and return element 1 as the password
    (`InvalidPassword` when absent). -/
def extract_method_and_password (input : Str) : Except SSParseError (Method × Str) :=
  match b64Decode input with
  | none => .error .InvalidPassword
  | some bytes =>
    match utf8Decode bytes with
    | none => .error .InvalidPassword
    | some text =>
      let parts := splitCh ':' text
      match parts.head? with
      | none => .error .InvalidMethod
      | some m0 =>
        match Method.tryFrom m0 with
        | .error _ => .error .InvalidMethod
        | .ok m =>
          match parts.get? 1 with
          | none => .error .InvalidPassword
          | some pw => .ok (m, pw)

/-- Model of `SSConfig::parse_sip002` (src/lib.rs lines 152-172). -/
def parse_sip002 (s : Str) : Except SSParseError SSConfig :=
  let s2 := remove_unsafe_padding s
  match urlParse s2 with
  | none => .error .InvalidUrl
  | some url =>
    match validate_protocol url with
    | .error e => .error e
    | .ok _ =>
      match extract_host url with
      | .error e => .error e
      | .ok host =>
        match extract_port url with
        | .error e => .error e
        | .ok port =>
          let query := extract_query url
          match extract_method_and_password url.username with
          | .error e => .error e
          | .ok mp =>
            .ok { host := host, port := port, method := mp.1, password := mp.2,
                  tag := extract_hash url.fragment,
                  extra := if query = [] then none else some query }

/-- Model of `SSConfig::parse_legacy_base64` (src/lib.rs lines 173-205). -/
def parse_legacy_base64 (s : Str) : Except SSParseError SSConfig :=
  match urlParse s with
  | none => .error .InvalidUrl
  | some url =>
    match validate_protocol url with
    | .error e => .error e
    | .ok _ =>
      match url.hostStr with
      | none => .error .InvalidUrl
      | some encoded =>
        match b64Decode encoded with
        | none => .error .InvalidUrl
        | some decoded =>
          match utf8Decode decoded with
          | none => .error .InvalidUrl
          | some ds0 =>
            let ds := trimEndCh '=' ds0
            match findIdxCh ':' ds with
            | none => .error .InvalidUrl
            | some ci =>
              match Method.tryFrom (ds.take ci) with
              | .error _ => .error .InvalidMethod
              | .ok m =>
                let remaining := trimStartCh ':' (ds.drop ci)
                match rfindIdxCh '@' remaining with
                | none => .error .InvalidUrl
                | some ai =>
                  let password := remaining.take ai
                  let remaining2 := trimStartCh '@' (remaining.drop ai)
                  match rfindIdxCh ':' remaining2 with
                  | none => .error .InvalidUrl
                  | some pi2 =>
                    match parseU16 (trimStartCh ':' (remaining2.drop pi2)) with
                    | none => .error .InvalidPort
                    | some port =>
                      match Host.parse (remaining2.take pi2) with
                      | none => .error .InvalidHost
                      | some host =>
                        .ok { host := host, port := port, method := m,
                              password := password,
                              tag := extract_hash url.fragment, extra := none }

/-- Model of the facade `SSConfig::parse` (src/lib.rs lines 140-150). -/
def parse (s : Str) : Except SSParseError SSConfig :=
  let result := parse_sip002 s
  if result.isOk then result
  else
    let legacy_result := parse_legacy_base64 s
    if legacy_result.isOk then legacy_result
    else result

end SSConfig

/-- The resolved redirect configuration (src/sip008.rs `struct SIP008Config`). -/
structure SIP008Config where
  location : Str
  cert_finger_print : Option Str
  http_method : Option Str
  deriving DecidableEq, Repr

/-- Parse errors of the redirect codec (src/sip008.rs `enum SIP008ParseError`). -/
inductive SIP008ParseError where
  | InvalidUrl
  | InvalidProtocol
  | InvalidPort
  | InvalidHost
  deriving DecidableEq, Repr

namespace SIP008Config

/-- Model of `SIP008Config::validate_protocol` (src/sip008.rs lines 37-42):
    the scheme must start with `ssconf`. -/
def validate_protocol (u : UrlModel) : Except SIP008ParseError Unit :=
  if "ssconf".data.isPrefixOf u.scheme then .ok () else .error .InvalidProtocol

/-- Model of `SIP008Config::parse` (src/sip008.rs lines 20-36). -/
def parse (input : Str) : Except SIP008ParseError SIP008Config :=
  match urlParse input with
  | none => .error .InvalidUrl
  | some url =>
    match validate_protocol url with
    | .error e => .error e
    | .ok _ =>
      let params := formParse (url.fragment.getD [])
      match url.hostStr with
      | none => .error .InvalidUrl
      | some h =>
        .ok { location := "https://".data ++ h ++
                ':' :: natToChars (url.portOrKnownDefault.getD 443) ++ url.path,
              cert_finger_print := lookupLast "certFp".data params,
              http_method := lookupLast "httpMethod".data params }

end SIP008Config

/-! Generic character and list lemmas used throughout the development. -/

theorem char_toNat_ofNat (n : Nat) (h : n < 0xD800) : (Char.ofNat n).toNat = n := by
  simp [Char.ofNat, Char.toNat, Nat.isValidChar, h, Char.ofNatAux]
  rfl

theorem char_toNat_bounds (c : Char) :
    c.toNat < 0x110000 ∧ ¬(0xD800 ≤ c.toNat ∧ c.toNat < 0xE000) := by
  have h := c.valid
  rcases h with h | ⟨h1, h2⟩ <;> simp only [Char.toNat] <;> omega

theorem findIdxCh_eq_none (c : Char) (l : Str) (h : c ∉ l) : findIdxCh c l = none := by
  induction l with
  | nil => rfl
  | cons a t ih =>
    simp only [List.mem_cons, not_or] at h
    simp [findIdxCh, Ne.symm h.1, ih h.2]

theorem findIdxCh_append_cons (c : Char) (xs ys : Str) (h : c ∉ xs) :
    findIdxCh c (xs ++ c :: ys) = some xs.length := by
  induction xs with
  | nil => simp [findIdxCh]
  | cons a t ih =>
    simp only [List.mem_cons, not_or] at h
    simp [findIdxCh, Ne.symm h.1, ih h.2]

theorem rfindIdxCh_eq_none (c : Char) (l : Str) (h : c ∉ l) : rfindIdxCh c l = none := by
  simp [rfindIdxCh, findIdxCh_eq_none c l.reverse (by simpa using h)]

theorem rfindIdxCh_append_cons (c : Char) (xs ys : Str) (h : c ∉ ys) :
    rfindIdxCh c (xs ++ c :: ys) = some xs.length := by
  have : (xs ++ c :: ys).reverse = ys.reverse ++ c :: xs.reverse := by
    simp [List.reverse_append]
  rw [rfindIdxCh, this, findIdxCh_append_cons c _ _ (by simpa using h)]
  simp only [Option.map_some']
  congr 1
  simp only [List.length_append, List.length_cons, List.length_reverse]
  omega

theorem take_findIdxCh (c : Char) (l : Str) (i : Nat) (h : findIdxCh c l = some i) :
    l.take i = l.takeWhile (· ≠ c) ∧ l.drop i = l.dropWhile (· ≠ c) := by
  induction l generalizing i with
  | nil => simp [findIdxCh] at h
  | cons a t ih =>
    by_cases hac : a = c
    · subst hac
      simp [findIdxCh] at h
      subst h
      simp [List.takeWhile, List.dropWhile]
    · simp [findIdxCh, hac] at h
      obtain ⟨j, hj, hij⟩ := h
      subst hij
      have := ih j hj
      simp [List.takeWhile, List.dropWhile, hac, this.1, this.2]

theorem takeWhile_append_cons {p : Char → Bool} (xs : Str) (y : Char) (ys : Str)
    (hxs : ∀ x ∈ xs, p x = true) (hy : p y = false) :
    (xs ++ y :: ys).takeWhile p = xs := by
  induction xs with
  | nil => simp [List.takeWhile, hy]
  | cons a t ih =>
    have ha := hxs a (by simp)
    simp only [List.cons_append, List.takeWhile_cons, ha, if_true]
    simp [ih (fun x hx => hxs x (by simp [hx]))]

theorem dropWhile_append_cons {p : Char → Bool} (xs : Str) (y : Char) (ys : Str)
    (hxs : ∀ x ∈ xs, p x = true) (hy : p y = false) :
    (xs ++ y :: ys).dropWhile p = y :: ys := by
  induction xs with
  | nil => simp [List.dropWhile, hy]
  | cons a t ih =>
    have ha := hxs a (by simp)
    simp only [List.cons_append, List.dropWhile_cons, ha, if_true]
    exact ih (fun x hx => hxs x (by simp [hx]))

theorem trimStartCh_cons_self (c : Char) (l : Str) :
    trimStartCh c (c :: l) = trimStartCh c l := by
  simp [trimStartCh, List.dropWhile_cons]

theorem trimStartCh_of_head_ne (c : Char) (l : Str) (h : l.head? ≠ some c) :
    trimStartCh c l = l := by
  cases l with
  | nil => rfl
  | cons a t =>
    simp only [List.head?_cons, ne_eq, Option.some.injEq] at h
    simp [trimStartCh, List.dropWhile_cons, h]

theorem trimEndCh_of_getLast_ne (c : Char) (l : Str) (h : l.getLast? ≠ some c) :
    trimEndCh c l = l := by
  rw [trimEndCh]
  rw [← List.head?_reverse] at h
  cases hr : l.reverse with
  | nil =>
    have hl : l = [] := by simpa using congrArg List.reverse hr
    simp [hl]
  | cons a t =>
    rw [hr] at h
    simp only [List.head?_cons, ne_eq, Option.some.injEq] at h
    rw [List.dropWhile_cons, if_neg (by simp [h]), ← hr, List.reverse_reverse]

theorem trimEndCh_of_not_mem (c : Char) (l : Str) (h : c ∉ l) : trimEndCh c l = l := by
  rw [trimEndCh]
  cases hr : l.reverse with
  | nil =>
    have hl : l = [] := by simpa using congrArg List.reverse hr
    simp [hl]
  | cons a t =>
    have ha : a ∈ l := by rw [← List.mem_reverse, hr]; simp
    rw [List.dropWhile_cons,
      if_neg (by simp only [decide_eq_true_eq]; intro e; exact h (e ▸ ha)), ← hr,
      List.reverse_reverse]

theorem mem_trimEndCh (c x : Char) (l : Str) (h : x ∈ trimEndCh c l) : x ∈ l := by
  rw [trimEndCh] at h
  simp only [List.mem_reverse] at h
  exact (List.mem_reverse).mp ((List.dropWhile_sublist _).mem h)

theorem trimEndCh_append (c : Char) (xs ys : Str) (h : trimEndCh c ys ≠ []) :
    trimEndCh c (xs ++ ys) = xs ++ trimEndCh c ys := by
  rw [trimEndCh, List.reverse_append, List.dropWhile_append]
  have hne : (ys.reverse.dropWhile (· = c)).isEmpty = false := by
    cases he : ys.reverse.dropWhile (· = c) with
    | nil => exact absurd (by simp [trimEndCh, he]) h
    | cons x t => rfl
  simp [hne, trimEndCh]

theorem trimEndCh_append_replicate (c : Char) (xs : Str) (m : Nat) :
    trimEndCh c (xs ++ List.replicate m c) = trimEndCh c xs := by
  rw [trimEndCh, List.reverse_append, List.reverse_replicate, List.dropWhile_append,
    List.dropWhile_replicate]
  simp [trimEndCh]

theorem joinCh_pair (c : Char) (x y : Str) : joinCh c [x, y] = x ++ c :: y := rfl

theorem splitCh_of_not_mem (sep : Char) (l : Str) (h : sep ∉ l) : splitCh sep l = [l] := by
  induction l with
  | nil => rfl
  | cons a t ih =>
    simp only [List.mem_cons, not_or] at h
    simp [splitCh, Ne.symm h.1, ih h.2]

theorem splitCh_append_cons (sep : Char) (xs ys : Str) (h : sep ∉ xs) :
    splitCh sep (xs ++ sep :: ys) = xs :: splitCh sep ys := by
  induction xs with
  | nil => simp [splitCh]
  | cons a t ih =>
    simp only [List.mem_cons, not_or] at h
    have := ih h.2
    simp [splitCh, Ne.symm h.1, this]

theorem splitCh_head (sep : Char) (l : Str) :
    (splitCh sep l).head? = some (l.takeWhile (· ≠ sep)) := by
  induction l with
  | nil => rfl
  | cons a t ih =>
    by_cases hac : a = sep
    · subst hac
      simp [splitCh, List.takeWhile_cons]
    · simp only [splitCh, hac, if_false, List.takeWhile_cons]
      cases hs : splitCh sep t with
      | nil => rw [hs] at ih; simp at ih
      | cons s ss =>
        rw [hs] at ih
        simp only [List.head?_cons, Option.some.injEq] at ih
        simp [List.modifyHead_cons, ih, hac]

theorem splitCh_of_mem (sep : Char) (l : Str) (h : sep ∈ l) :
    splitCh sep l =
      l.takeWhile (· ≠ sep) :: splitCh sep ((l.dropWhile (· ≠ sep)).drop 1) := by
  induction l with
  | nil => simp at h
  | cons a t ih =>
    by_cases hac : a = sep
    · subst hac
      simp [splitCh, List.takeWhile_cons, List.dropWhile_cons]
    · have ht : sep ∈ t := by
        rcases List.mem_cons.mp h with h1 | h1
        · exact absurd h1.symm hac
        · exact h1
      simp only [splitCh, hac, if_false, List.takeWhile_cons, List.dropWhile_cons]
      rw [ih ht]
      simp [List.modifyHead_cons, hac]

theorem findIdxCh_lt_length (c : Char) (l : Str) (i : Nat) (h : findIdxCh c l = some i) :
    i < l.length := by
  induction l generalizing i with
  | nil => simp [findIdxCh] at h
  | cons a t ih =>
    by_cases hac : a = c
    · subst hac
      simp [findIdxCh] at h
      simp only [List.length_cons]
      omega
    · simp [findIdxCh, hac] at h
      obtain ⟨j, hj, hij⟩ := h
      have := ih j hj
      simp only [List.length_cons]
      omega

theorem take_rfindIdxCh (c : Char) (l : Str) (i : Nat) (h : rfindIdxCh c l = some i) :
    l.take i = beforeLastCh c l := by
  rw [rfindIdxCh] at h
  cases hj : findIdxCh c l.reverse with
  | none => rw [hj] at h; cases h
  | some j =>
    rw [hj] at h
    simp only [Option.map_some', Option.some.injEq] at h
    have hjl : j < l.length := by
      have := findIdxCh_lt_length c l.reverse j hj
      simpa using this
    have hdrop := (take_findIdxCh c l.reverse j hj).2
    rw [beforeLastCh, ← hdrop, List.drop_drop, List.drop_reverse, List.reverse_reverse]
    congr 1
    omega

theorem containsEqAt_cons_cons (a b : Char) (t : Str) :
    containsEqAt (a :: b :: t) = ((a = '=' && b = '@') || containsEqAt (b :: t)) := rfl

theorem splitEqAt_cons_cons (a b : Char) (t : Str) :
    splitEqAt (a :: b :: t) =
      if a = '=' ∧ b = '@' then [] :: splitEqAt t
      else List.modifyHead (a :: ·) (splitEqAt (b :: t)) := rfl

theorem containsEqAt_of_not_mem (l : Str) (h : '@' ∉ l) : containsEqAt l = false := by
  induction l with
  | nil => rfl
  | cons a t ih =>
    cases t with
    | nil => rfl
    | cons b t2 =>
      simp only [List.mem_cons, not_or] at h
      have ht : '@' ∉ b :: t2 := by simp [not_or, h.2.1, h.2.2]
      rw [containsEqAt_cons_cons]
      simp only [ih ht, Bool.or_false, Bool.and_eq_false_iff]
      right
      simp [Ne.symm h.2.1]

theorem containsEqAt_boundary (A B : Str) (hA : '=' ∉ A) (hB : containsEqAt B = false) :
    containsEqAt (A ++ '@' :: B) = false := by
  induction A with
  | nil =>
    cases B with
    | nil => rfl
    | cons b B2 =>
      rw [List.nil_append, containsEqAt_cons_cons, hB]
      simp
  | cons a A2 ih =>
    simp only [List.mem_cons, not_or] at hA
    cases hEq : A2 ++ '@' :: B with
    | nil => simp at hEq
    | cons y t =>
      rw [List.cons_append, hEq, containsEqAt_cons_cons, ← hEq, ih hA.2]
      simp [Ne.symm hA.1]

theorem containsEqAt_append_right (A B : Str) (hB : containsEqAt B = true) :
    containsEqAt (A ++ B) = true := by
  induction A with
  | nil => simpa
  | cons a A2 ih =>
    cases hEq : A2 ++ B with
    | nil =>
      rw [hEq] at ih
      rw [List.append_eq_nil] at hEq
      rw [hEq.2] at hB
      cases hB
    | cons y t =>
      rw [List.cons_append, hEq, containsEqAt_cons_cons, ← hEq, ih]
      simp

theorem containsEqAt_pad (k : Nat) (r : Str) :
    containsEqAt (List.replicate (k + 1) '=' ++ '@' :: r) = true := by
  induction k with
  | zero => rfl
  | succ k ih =>
    have h1 : List.replicate (k + 2) '=' ++ '@' :: r =
        '=' :: (List.replicate (k + 1) '=' ++ '@' :: r) := by
      simp [List.replicate_succ]
    have h2 : List.replicate (k + 1) '=' ++ '@' :: r =
        '=' :: (List.replicate k '=' ++ '@' :: r) := by
      simp [List.replicate_succ]
    rw [h1, h2, containsEqAt_cons_cons, ← h2, ih]
    simp

theorem splitEqAt_of_not_contains (l : Str) (h : containsEqAt l = false) :
    splitEqAt l = [l] := by
  induction l with
  | nil => rfl
  | cons a t ih =>
    cases t with
    | nil => rfl
    | cons b t2 =>
      rw [containsEqAt_cons_cons] at h
      simp only [Bool.or_eq_false_iff, Bool.and_eq_false_iff] at h
      rw [splitEqAt_cons_cons, if_neg, ih h.2]
      · simp [List.modifyHead_cons]
      · intro ⟨e1, e2⟩
        rcases h.1 with h1 | h1 <;> simp_all

theorem splitEqAt_pad (k : Nat) (r : Str) (hr : containsEqAt r = false) :
    splitEqAt (List.replicate (k + 1) '=' ++ '@' :: r) = [List.replicate k '=', r] := by
  induction k with
  | zero =>
    have : List.replicate 1 '=' ++ '@' :: r = '=' :: '@' :: r := by simp
    rw [this, splitEqAt_cons_cons, if_pos ⟨rfl, rfl⟩, splitEqAt_of_not_contains r hr]
    rfl
  | succ k ih =>
    have h2 : List.replicate (k + 2) '=' ++ '@' :: r =
        '=' :: (List.replicate (k + 1) '=' ++ '@' :: r) := by
      simp [List.replicate_succ]
    have h3 : List.replicate (k + 1) '=' ++ '@' :: r =
        '=' :: (List.replicate k '=' ++ '@' :: r) := by
      simp [List.replicate_succ]
    rw [h2, h3, splitEqAt_cons_cons, if_neg (by rintro ⟨_, e⟩; cases e), ← h3, ih]
    simp [List.modifyHead_cons, List.replicate_succ]

theorem splitEqAt_main (A : Str) (k : Nat) (r : Str) (hA : '=' ∉ A)
    (hr : containsEqAt r = false) :
    splitEqAt (A ++ (List.replicate (k + 1) '=' ++ '@' :: r)) =
      [A ++ List.replicate k '=', r] := by
  induction A with
  | nil => simpa using splitEqAt_pad k r hr
  | cons a A2 ih =>
    simp only [List.mem_cons, not_or] at hA
    cases hEq : A2 ++ (List.replicate (k + 1) '=' ++ '@' :: r) with
    | nil => simp at hEq
    | cons y t =>
      rw [List.cons_append, hEq, splitEqAt_cons_cons, if_neg, ← hEq, ih hA.2]
      · simp [List.modifyHead_cons]
      · rintro ⟨e1, _⟩
        exact hA.1 e1.symm

theorem trimCh_of_ends (c : Char) (l : Str) (h1 : l.head? ≠ some c)
    (h2 : l.getLast? ≠ some c) : trimCh c l = l := by
  rw [trimCh, trimEndCh_of_getLast_ne c l h2, trimStartCh_of_head_ne c l h1]

/-! Base64 lemmas: the source strips the `=` padding from `base64::encode`
    output, and `base64::decode` tolerates the missing padding. -/

theorem b64Index_b64Char : ∀ n < 64, b64Index (b64Char n) = some n := by decide

theorem b64Char_facts : ∀ n < 64, b64Char n ≠ '=' ∧ b64Char n ≠ '@' ∧ b64Char n ≠ ':' ∧
    b64Char n ≠ '#' ∧ b64Char n ≠ '?' ∧ b64Char n ≠ '[' ∧
    forbiddenOpaqueChar (b64Char n) = false := by decide

theorem mem_b64EncodeNoPad : ∀ (bs : List Nat), (∀ b ∈ bs, b < 256) →
    ∀ x ∈ b64EncodeNoPad bs, ∃ n, n < 64 ∧ x = b64Char n
  | [], _, x, hx => by simp [b64EncodeNoPad] at hx
  | [a], h, x, hx => by
    have ha := h a (by simp)
    simp only [b64EncodeNoPad, List.mem_cons, List.not_mem_nil, or_false] at hx
    rcases hx with rfl | rfl
    · exact ⟨a / 4, by omega, rfl⟩
    · exact ⟨a % 4 * 16, by omega, rfl⟩
  | [a, b], h, x, hx => by
    have ha := h a (by simp)
    have hb := h b (by simp)
    simp only [b64EncodeNoPad, List.mem_cons, List.not_mem_nil, or_false] at hx
    rcases hx with rfl | rfl | rfl
    · exact ⟨a / 4, by omega, rfl⟩
    · exact ⟨a % 4 * 16 + b / 16, by omega, rfl⟩
    · exact ⟨b % 16 * 4, by omega, rfl⟩
  | a :: b :: c :: t, h, x, hx => by
    have ha := h a (by simp)
    have hb := h b (by simp)
    have hc := h c (by simp)
    simp only [b64EncodeNoPad, List.mem_cons] at hx
    rcases hx with rfl | rfl | rfl | rfl | hx
    · exact ⟨a / 4, by omega, rfl⟩
    · exact ⟨a % 4 * 16 + b / 16, by omega, rfl⟩
    · exact ⟨b % 16 * 4 + c / 64, by omega, rfl⟩
    · exact ⟨c % 64, by omega, rfl⟩
    · exact mem_b64EncodeNoPad t (fun y hy => h y (by simp [hy])) x hx

theorem eq_not_mem_b64EncodeNoPad (bs : List Nat) (h : ∀ b ∈ bs, b < 256) :
    '=' ∉ b64EncodeNoPad bs := by
  intro hx
  obtain ⟨n, hn, he⟩ := mem_b64EncodeNoPad bs h '=' hx
  exact (b64Char_facts n hn).1 he.symm

theorem b64EncodeNoPad_ne_nil : ∀ (bs : List Nat), bs ≠ [] → b64EncodeNoPad bs ≠ []
  | [], h => absurd rfl h
  | [_], _ => by simp [b64EncodeNoPad]
  | [_, _], _ => by simp [b64EncodeNoPad]
  | _ :: _ :: _ :: _, _ => by simp [b64EncodeNoPad]

theorem trimEnd_b64Encode : ∀ (bs : List Nat), (∀ b ∈ bs, b < 256) →
    trimEndCh '=' (b64Encode bs) = b64EncodeNoPad bs
  | [], _ => rfl
  | [a], h => by
    have ha := h a (by simp)
    have h1 : b64Encode [a] = [b64Char (a / 4), b64Char (a % 4 * 16)] ++
        List.replicate 2 '=' := rfl
    rw [h1, trimEndCh_append_replicate, trimEndCh_of_not_mem]
    · rfl
    · intro hm
      obtain ⟨n, hn, he⟩ :=
        mem_b64EncodeNoPad [a] h '=' (by simpa [b64EncodeNoPad] using hm)
      exact (b64Char_facts n hn).1 he.symm
  | [a, b], h => by
    have ha := h a (by simp)
    have hb := h b (by simp)
    have h1 : b64Encode [a, b] =
        [b64Char (a / 4), b64Char (a % 4 * 16 + b / 16), b64Char (b % 16 * 4)] ++
        List.replicate 1 '=' := rfl
    rw [h1, trimEndCh_append_replicate, trimEndCh_of_not_mem]
    · rfl
    · intro hm
      obtain ⟨n, hn, he⟩ := mem_b64EncodeNoPad [a, b] h '='
        (by simpa [b64EncodeNoPad] using hm)
      exact (b64Char_facts n hn).1 he.symm
  | a :: b :: c :: t, h => by
    have hsub : ∀ y ∈ t, y < 256 := fun y hy => h y (by simp [hy])
    have h1 : b64Encode (a :: b :: c :: t) =
        [b64Char (a / 4), b64Char (a % 4 * 16 + b / 16), b64Char (b % 16 * 4 + c / 64),
         b64Char (c % 64)] ++ b64Encode t := rfl
    have h2 : b64EncodeNoPad (a :: b :: c :: t) =
        [b64Char (a / 4), b64Char (a % 4 * 16 + b / 16), b64Char (b % 16 * 4 + c / 64),
         b64Char (c % 64)] ++ b64EncodeNoPad t := rfl
    cases ht : t with
    | nil =>
      subst ht
      rw [h1, h2]
      simp only [List.append_nil, b64Encode, b64EncodeNoPad]
      apply trimEndCh_of_not_mem
      intro hm
      obtain ⟨n, hn, he⟩ := mem_b64EncodeNoPad (a :: b :: c :: []) h '=' (by
        simp only [b64EncodeNoPad]
        simpa [b64EncodeNoPad] using hm)
      exact (b64Char_facts n hn).1 he.symm
    | cons y ys =>
      subst ht
      rw [h1, h2, trimEndCh_append, trimEnd_b64Encode (y :: ys) hsub]
      rw [trimEnd_b64Encode (y :: ys) hsub]
      exact b64EncodeNoPad_ne_nil _ (by simp)

theorem b64DecodeBody_encodeNoPad : ∀ (bs : List Nat), (∀ b ∈ bs, b < 256) →
    b64DecodeBody (b64EncodeNoPad bs) = some bs
  | [], _ => rfl
  | [a], h => by
    have ha := h a (by simp)
    have h1 : b64EncodeNoPad [a] = [b64Char (a / 4), b64Char (a % 4 * 16)] := rfl
    rw [h1]
    simp only [b64DecodeBody, b64Index_b64Char (a / 4) (by omega),
      b64Index_b64Char (a % 4 * 16) (by omega)]
    rw [if_pos (by omega)]
    have e1 : a / 4 * 4 + a % 4 * 16 / 16 = a := by omega
    rw [e1]
  | [a, b], h => by
    have ha := h a (by simp)
    have hb := h b (by simp)
    have h1 : b64EncodeNoPad [a, b] =
        [b64Char (a / 4), b64Char (a % 4 * 16 + b / 16), b64Char (b % 16 * 4)] := rfl
    rw [h1]
    simp only [b64DecodeBody, b64Index_b64Char (a / 4) (by omega),
      b64Index_b64Char (a % 4 * 16 + b / 16) (by omega),
      b64Index_b64Char (b % 16 * 4) (by omega)]
    rw [if_pos (by omega)]
    have e1 : a / 4 * 4 + (a % 4 * 16 + b / 16) / 16 = a := by omega
    have e2 : (a % 4 * 16 + b / 16) % 16 * 16 + b % 16 * 4 / 4 = b := by omega
    rw [e1, e2]
  | a :: b :: c :: t, h => by
    have ha := h a (by simp)
    have hb := h b (by simp)
    have hc := h c (by simp)
    have hsub : ∀ y ∈ t, y < 256 := fun y hy => h y (by simp [hy])
    have h1 : b64EncodeNoPad (a :: b :: c :: t) =
        b64Char (a / 4) :: b64Char (a % 4 * 16 + b / 16) ::
        b64Char (b % 16 * 4 + c / 64) :: b64Char (c % 64) :: b64EncodeNoPad t := rfl
    rw [h1]
    have hd : b64DecodeBody (b64Char (a / 4) :: b64Char (a % 4 * 16 + b / 16) ::
        b64Char (b % 16 * 4 + c / 64) :: b64Char (c % 64) :: b64EncodeNoPad t) =
        (b64DecodeBody (b64EncodeNoPad t)).map
          (fun bs2 => ((a / 4) * 4 + (a % 4 * 16 + b / 16) / 16) ::
            ((a % 4 * 16 + b / 16) % 16 * 16 + (b % 16 * 4 + c / 64) / 4) ::
            ((b % 16 * 4 + c / 64) % 4 * 64 + c % 64) :: bs2) := by
      simp only [b64DecodeBody, b64Index_b64Char (a / 4) (by omega),
        b64Index_b64Char (a % 4 * 16 + b / 16) (by omega),
        b64Index_b64Char (b % 16 * 4 + c / 64) (by omega),
        b64Index_b64Char (c % 64) (by omega)]
    rw [hd, b64DecodeBody_encodeNoPad t hsub]
    simp only [Option.map_some']
    have e1 : a / 4 * 4 + (a % 4 * 16 + b / 16) / 16 = a := by omega
    have e2 : (a % 4 * 16 + b / 16) % 16 * 16 + (b % 16 * 4 + c / 64) / 4 = b := by omega
    have e3 : (b % 16 * 4 + c / 64) % 4 * 64 + c % 64 = c := by omega
    rw [e1, e2, e3]

theorem b64Decode_encode (bs : List Nat) (h : ∀ b ∈ bs, b < 256) :
    b64Decode (trimEndCh '=' (b64Encode bs)) = some bs := by
  rw [trimEnd_b64Encode bs h, b64Decode]
  have hnm : '=' ∉ b64EncodeNoPad bs := eq_not_mem_b64EncodeNoPad bs h
  rw [trimEndCh_of_not_mem _ _ hnm]
  simp only [Nat.sub_self, if_pos rfl]
  rw [if_neg hnm]
  exact b64DecodeBody_encodeNoPad bs h

/-! UTF-8 lemmas: strict and lossy decoding invert encoding. -/

theorem utf8EncodeChar_lt256 (c : Char) : ∀ x ∈ utf8EncodeChar c, x < 256 := by
  have hb := char_toNat_bounds c
  intro x hx
  rw [utf8EncodeChar] at hx
  by_cases h1 : c.toNat < 0x80
  · simp [h1] at hx; omega
  · by_cases h2 : c.toNat < 0x800
    · simp [h1, h2] at hx; rcases hx with rfl | rfl <;> omega
    · by_cases h3 : c.toNat < 0x10000
      · simp [h1, h2, h3] at hx; rcases hx with rfl | rfl | rfl <;> omega
      · simp [h1, h2, h3] at hx; rcases hx with rfl | rfl | rfl | rfl <;> omega

theorem utf8EncodeChar_ne_nil (c : Char) : utf8EncodeChar c ≠ [] := by
  rw [utf8EncodeChar]
  by_cases h1 : c.toNat < 0x80
  · simp [h1]
  · by_cases h2 : c.toNat < 0x800
    · simp [h1, h2]
    · by_cases h3 : c.toNat < 0x10000
      · simp [h1, h2, h3]
      · simp [h1, h2, h3]

theorem utf8Encode_lt256 (s : Str) : ∀ x ∈ utf8Encode s, x < 256 := by
  intro x hx
  rw [utf8Encode] at hx
  simp only [List.mem_flatMap] at hx
  obtain ⟨c, _, hc⟩ := hx
  exact utf8EncodeChar_lt256 c x hc

theorem utf8Step_encodeChar (c : Char) (rest : List Nat) :
    utf8Step (utf8EncodeChar c ++ rest) = some (c, (utf8EncodeChar c).length) := by
  have hb := char_toNat_bounds c
  have hofNat : Char.ofNat c.toNat = c := Char.ofNat_toNat c
  rw [utf8EncodeChar]
  by_cases h1 : c.toNat < 0x80
  · rw [if_pos h1, List.singleton_append, utf8Step]
    simp only [h1, if_true, hofNat, List.length_singleton]
  · by_cases h2 : c.toNat < 0x800
    · rw [if_neg h1, if_pos h2, List.cons_append, List.singleton_append, utf8Step]
      have hb1 : ¬(192 + c.toNat / 64 < 128) := by omega
      have hb2 : ¬(192 + c.toNat / 64 < 194) := by omega
      have hb3 : 192 + c.toNat / 64 < 224 := by omega
      have hcont : isCont (128 + c.toNat % 64) = true := by
        simp only [isCont, Bool.and_eq_true, decide_eq_true_eq]
        omega
      simp only [hb1, hb2, hb3, hcont, if_true, if_false, ite_true, ite_false,
        List.head?_cons, Option.bind_some, Option.some_bind]
      rw [show (192 + c.toNat / 64 - 192) * 64 + (128 + c.toNat % 64 - 128) = c.toNat
        by omega, hofNat]
      simp
    · by_cases h3 : c.toNat < 0x10000
      · rw [if_neg h1, if_neg h2, if_pos h3, List.cons_append, List.cons_append,
          List.singleton_append, utf8Step]
        have hb1 : ¬(224 + c.toNat / 4096 < 128) := by omega
        have hb2 : ¬(224 + c.toNat / 4096 < 194) := by omega
        have hb3 : ¬(224 + c.toNat / 4096 < 224) := by omega
        have hb4 : 224 + c.toNat / 4096 < 240 := by omega
        have hcont : (isCont (128 + c.toNat / 64 % 64) && isCont (128 + c.toNat % 64)) =
            true := by
          simp only [isCont, Bool.and_eq_true, decide_eq_true_eq]
          omega
        have hv : (224 + c.toNat / 4096 - 224) * 4096 + (128 + c.toNat / 64 % 64 - 128) * 64 +
            (128 + c.toNat % 64 - 128) = c.toNat := by omega
        simp only [hb1, hb2, hb3, hb4, hcont, if_true, if_false, ite_true, ite_false,
          List.head?_cons, List.drop_one, List.tail_cons, Option.bind_some, Option.some_bind]
        rw [hv, if_pos ⟨by omega, hb.2⟩, hofNat]
        simp
      · rw [if_neg h1, if_neg h2, if_neg h3, List.cons_append, List.cons_append,
          List.cons_append, List.singleton_append, utf8Step]
        have hn4 : c.toNat < 1114112 := hb.1
        have hb1 : ¬(240 + c.toNat / 262144 < 128) := by omega
        have hb2 : ¬(240 + c.toNat / 262144 < 194) := by omega
        have hb3 : ¬(240 + c.toNat / 262144 < 224) := by omega
        have hb4 : ¬(240 + c.toNat / 262144 < 240) := by omega
        have hb5 : 240 + c.toNat / 262144 < 245 := by omega
        have hcont : (isCont (128 + c.toNat / 4096 % 64) && isCont (128 + c.toNat / 64 % 64) &&
            isCont (128 + c.toNat % 64)) = true := by
          simp only [isCont, Bool.and_eq_true, decide_eq_true_eq]
          omega
        have hv : (240 + c.toNat / 262144 - 240) * 262144 + (128 + c.toNat / 4096 % 64 - 128) *
            4096 + (128 + c.toNat / 64 % 64 - 128) * 64 + (128 + c.toNat % 64 - 128) =
            c.toNat := by omega
        simp only [hb1, hb2, hb3, hb4, hb5, hcont, if_true, if_false, ite_true, ite_false,
          List.head?_cons, List.drop_one, List.tail_cons, List.drop_succ_cons,
          List.drop_zero, Option.bind_some, Option.some_bind]
        rw [hv, if_pos ⟨by omega, hn4⟩, hofNat]
        simp

theorem utf8EncodeChar_length_pos (c : Char) : 0 < (utf8EncodeChar c).length := by
  cases he : utf8EncodeChar c with
  | nil => exact absurd he (utf8EncodeChar_ne_nil c)
  | cons y ys => simp

theorem utf8DecodeF_encode_cons (f : Nat) (c : Char) (rest : List Nat) :
    utf8DecodeF (f + 1) (utf8EncodeChar c ++ rest) =
      (utf8DecodeF f rest).map (c :: ·) := by
  have hstep := utf8Step_encodeChar c rest
  cases he : utf8EncodeChar c with
  | nil => exact absurd he (utf8EncodeChar_ne_nil c)
  | cons y ys =>
    rw [he] at hstep
    rw [List.cons_append] at hstep ⊢
    have hunf : utf8DecodeF (f + 1) (y :: (ys ++ rest)) =
        match utf8Step (y :: (ys ++ rest)) with
        | some (c, k) => (utf8DecodeF f ((y :: (ys ++ rest)).drop k)).map (c :: ·)
        | none => none := rfl
    rw [hunf, hstep]
    have hdrop : (y :: (ys ++ rest)).drop (y :: ys).length = rest := by
      have heq : y :: (ys ++ rest) = (y :: ys) ++ rest := by simp
      rw [heq, List.drop_left]
    show Option.map (fun x => c :: x)
        (utf8DecodeF f (List.drop (y :: ys).length (y :: (ys ++ rest)))) =
      Option.map (fun x => c :: x) (utf8DecodeF f rest)
    rw [hdrop]

theorem utf8DecodeF_encode (fuel : Nat) (s : Str)
    (h : (utf8Encode s).length ≤ fuel) : utf8DecodeF fuel (utf8Encode s) = some s := by
  induction s generalizing fuel with
  | nil => cases fuel <;> rfl
  | cons c t ih =>
    have henc : utf8Encode (c :: t) = utf8EncodeChar c ++ utf8Encode t := by
      simp [utf8Encode]
    have hlen := utf8EncodeChar_length_pos c
    rw [henc] at h ⊢
    rw [List.length_append] at h
    cases fuel with
    | zero => omega
    | succ f =>
      rw [utf8DecodeF_encode_cons, ih f (by omega)]
      rfl

theorem utf8Decode_encode (s : Str) : utf8Decode (utf8Encode s) = some s :=
  utf8DecodeF_encode _ s le_rfl

theorem utf8DecodeLossyF_encode_cons (f : Nat) (c : Char) (rest : List Nat) :
    utf8DecodeLossyF (f + 1) (utf8EncodeChar c ++ rest) =
      c :: utf8DecodeLossyF f rest := by
  have hstep := utf8Step_encodeChar c rest
  cases he : utf8EncodeChar c with
  | nil => exact absurd he (utf8EncodeChar_ne_nil c)
  | cons y ys =>
    rw [he] at hstep
    rw [List.cons_append] at hstep ⊢
    have hunf : utf8DecodeLossyF (f + 1) (y :: (ys ++ rest)) =
        match utf8Step (y :: (ys ++ rest)) with
        | some (c, k) => c :: utf8DecodeLossyF f ((y :: (ys ++ rest)).drop k)
        | none => '\uFFFD' :: utf8DecodeLossyF f (ys ++ rest) := rfl
    rw [hunf, hstep]
    have hdrop : (y :: (ys ++ rest)).drop (y :: ys).length = rest := by
      have heq : y :: (ys ++ rest) = (y :: ys) ++ rest := by simp
      rw [heq, List.drop_left]
    show c :: utf8DecodeLossyF f (List.drop (y :: ys).length (y :: (ys ++ rest))) =
      c :: utf8DecodeLossyF f rest
    rw [hdrop]

theorem utf8DecodeLossyF_encode (fuel : Nat) (s : Str)
    (h : (utf8Encode s).length ≤ fuel) : utf8DecodeLossyF fuel (utf8Encode s) = s := by
  induction s generalizing fuel with
  | nil => cases fuel <;> rfl
  | cons c t ih =>
    have henc : utf8Encode (c :: t) = utf8EncodeChar c ++ utf8Encode t := by
      simp [utf8Encode]
    have hlen := utf8EncodeChar_length_pos c
    rw [henc] at h ⊢
    rw [List.length_append] at h
    cases fuel with
    | zero => omega
    | succ f => rw [utf8DecodeLossyF_encode_cons, ih f (by omega)]

theorem utf8DecodeLossy_encode (s : Str) : utf8DecodeLossy (utf8Encode s) = s :=
  utf8DecodeLossyF_encode _ s le_rfl

/-! Percent-encoding lemmas. -/

theorem hexVal_hexDig : ∀ n < 16, hexVal (hexDig n) = some n := by decide

theorem pctEncodeBytes_cons (b : Nat) (t : List Nat) :
    pctEncodeBytes (b :: t) =
      (if isAlnumByte b then [Char.ofNat b] else ['%', hexDig (b / 16), hexDig (b % 16)]) ++
        pctEncodeBytes t := by
  simp [pctEncodeBytes]

theorem pctDecodeF_encode : ∀ (bs : List Nat) (fuel : Nat), (∀ b ∈ bs, b < 256) →
    (pctEncodeBytes bs).length ≤ fuel → pctDecodeBytesF fuel (pctEncodeBytes bs) = bs
  | [], fuel, _, _ => by cases fuel <;> rfl
  | b :: t, fuel, h, hf => by
    have hb := h b (by simp)
    have ht : ∀ y ∈ t, y < 256 := fun y hy => h y (by simp [hy])
    rw [pctEncodeBytes_cons] at hf ⊢
    rw [List.length_append] at hf
    by_cases ha : isAlnumByte b
    · rw [if_pos ha] at hf ⊢
      rw [List.singleton_append]
      have hlt : b < 0xD800 := by omega
      have htn : (Char.ofNat b).toNat = b := char_toNat_ofNat b hlt
      have hb128 : b < 128 := by
        simp only [isAlnumByte, Bool.or_eq_true, Bool.and_eq_true, decide_eq_true_eq] at ha
        omega
      have hne : ¬(Char.ofNat b = '%') := by
        intro he
        have h37 : (Char.ofNat b).toNat = 37 := by rw [he]; rfl
        rw [htn] at h37
        subst h37
        exact absurd ha (by decide)
      cases fuel with
      | zero => simp at hf
      | succ f =>
        have hunf : pctDecodeBytesF (f + 1) (Char.ofNat b :: pctEncodeBytes t) =
            if Char.ofNat b = '%' then
              match pctEncodeBytes t with
              | c1 :: c2 :: t2 =>
                match hexVal c1, hexVal c2 with
                | some hh, some lo => (hh * 16 + lo) :: pctDecodeBytesF f t2
                | _, _ => utf8EncodeChar (Char.ofNat b) ++ pctDecodeBytesF f (pctEncodeBytes t)
              | _ => utf8EncodeChar (Char.ofNat b) ++ pctDecodeBytesF f (pctEncodeBytes t)
            else utf8EncodeChar (Char.ofNat b) ++ pctDecodeBytesF f (pctEncodeBytes t) := rfl
        rw [hunf, if_neg hne]
        have hchar : utf8EncodeChar (Char.ofNat b) = [b] := by
          simp only [utf8EncodeChar, htn]
          rw [if_pos hb128]
        rw [hchar, pctDecodeF_encode t f ht (by simp at hf; omega), List.singleton_append]
    · rw [if_neg ha] at hf ⊢
      rw [List.cons_append, List.cons_append, List.singleton_append]
      cases fuel with
      | zero => simp at hf
      | succ f =>
        have hunf : pctDecodeBytesF (f + 1) ('%' :: hexDig (b / 16) :: hexDig (b % 16) ::
            pctEncodeBytes t) =
            if ('%' : Char) = '%' then
              match hexDig (b / 16) :: hexDig (b % 16) :: pctEncodeBytes t with
              | c1 :: c2 :: t2 =>
                match hexVal c1, hexVal c2 with
                | some hh, some lo => (hh * 16 + lo) :: pctDecodeBytesF f t2
                | _, _ => utf8EncodeChar '%' ++ pctDecodeBytesF f
                    (hexDig (b / 16) :: hexDig (b % 16) :: pctEncodeBytes t)
              | _ => utf8EncodeChar '%' ++ pctDecodeBytesF f
                  (hexDig (b / 16) :: hexDig (b % 16) :: pctEncodeBytes t)
            else utf8EncodeChar '%' ++ pctDecodeBytesF f
              (hexDig (b / 16) :: hexDig (b % 16) :: pctEncodeBytes t) := rfl
        rw [hunf, if_pos rfl]
        show (match hexVal (hexDig (b / 16)), hexVal (hexDig (b % 16)) with
          | some hh, some lo => (hh * 16 + lo) :: pctDecodeBytesF f (pctEncodeBytes t)
          | _, _ => utf8EncodeChar '%' ++ pctDecodeBytesF f
              (hexDig (b / 16) :: hexDig (b % 16) :: pctEncodeBytes t)) = b :: t
        rw [hexVal_hexDig (b / 16) (by omega), hexVal_hexDig (b % 16) (by omega)]
        show (b / 16 * 16 + b % 16) :: pctDecodeBytesF f (pctEncodeBytes t) = b :: t
        rw [show b / 16 * 16 + b % 16 = b by omega,
          pctDecodeF_encode t f ht (by simp at hf; omega)]

theorem pctDecode_encode (bs : List Nat) (h : ∀ b ∈ bs, b < 256) :
    pctDecodeBytes (pctEncodeBytes bs) = bs :=
  pctDecodeF_encode bs _ h le_rfl

theorem tag_roundtrip (t : Str) :
    utf8DecodeLossy (pctDecodeBytes (pctEncodeBytes (utf8Encode t))) = t := by
  rw [pctDecode_encode (utf8Encode t) (utf8Encode_lt256 t), utf8DecodeLossy_encode]

/-! Decimal-digit lemmas for port rendering and parsing. -/

theorem natToCharsF_shift (n : Nat) : ∀ (fuel : Nat) (acc : Str), n ≤ fuel →
    natToCharsF fuel n acc = natToChars n ++ acc := by
  induction n using Nat.strong_induction_on with
  | _ n ih =>
    intro fuel acc hle
    by_cases h10 : n < 10
    · cases fuel with
      | zero =>
        rw [natToCharsF, natToChars]
        cases n with
        | zero => rfl
        | succ m => omega
      | succ f =>
        rw [natToCharsF, if_pos h10, natToChars]
        cases hn : n with
        | zero => rfl
        | succ m =>
          rw [natToCharsF, if_pos (by omega)]
          rfl
    · cases fuel with
      | zero => omega
      | succ f =>
        rw [natToCharsF, if_neg h10]
        have hdiv : n / 10 < n := by omega
        have hstep : natToCharsF f (n / 10) (Char.ofNat (48 + n % 10) :: acc) =
            natToChars (n / 10) ++ Char.ofNat (48 + n % 10) :: acc :=
          ih (n / 10) hdiv f _ (by omega)
        rw [hstep]
        have hdec : natToChars n = natToChars (n / 10) ++ [Char.ofNat (48 + n % 10)] := by
          rw [natToChars]
          cases hn : n with
          | zero => omega
          | succ m =>
            rw [natToCharsF, if_neg (by omega)]
            rw [← hn]
            exact ih (n / 10) hdiv m _ (by omega)
        rw [hdec, List.append_assoc, List.singleton_append]

theorem natToChars_decomp (n : Nat) (h : ¬n < 10) :
    natToChars n = natToChars (n / 10) ++ [Char.ofNat (48 + n % 10)] := by
  rw [natToChars]
  cases hn : n with
  | zero => omega
  | succ m =>
    rw [natToCharsF, if_neg (by omega), ← hn]
    exact natToCharsF_shift (n / 10) m _ (by omega)

theorem natToChars_digits (n : Nat) :
    ∀ x ∈ natToChars n, '0' ≤ x ∧ x ≤ '9' := by
  induction n using Nat.strong_induction_on with
  | _ n ih =>
    intro x hx
    by_cases h10 : n < 10
    · rw [natToChars] at hx
      cases hn : n with
      | zero =>
        subst hn
        simp only [natToCharsF] at hx
        simp only [List.mem_singleton] at hx
        subst hx
        decide
      | succ m =>
        rw [hn] at hx
        rw [natToCharsF, if_pos (by omega)] at hx
        simp only [List.mem_singleton] at hx
        subst hx
        constructor
        · show (48 : Nat) ≤ (Char.ofNat (48 + (m + 1))).toNat
          rw [char_toNat_ofNat _ (by omega)]
          omega
        · show (Char.ofNat (48 + (m + 1))).toNat ≤ 57
          rw [char_toNat_ofNat _ (by omega)]
          omega
    · rw [natToChars_decomp n h10] at hx
      rcases List.mem_append.mp hx with hx | hx
      · exact ih (n / 10) (by omega) x hx
      · simp only [List.mem_singleton] at hx
        subst hx
        constructor
        · show (48 : Nat) ≤ (Char.ofNat (48 + n % 10)).toNat
          rw [char_toNat_ofNat _ (by omega)]
          omega
        · show (Char.ofNat (48 + n % 10)).toNat ≤ 57
          rw [char_toNat_ofNat _ (by omega)]
          omega

theorem natToChars_ne_nil (n : Nat) : natToChars n ≠ [] := by
  by_cases h10 : n < 10
  · rw [natToChars]
    cases hn : n with
    | zero => simp [natToCharsF]
    | succ m =>
      rw [natToCharsF, if_pos (by omega)]
      simp
  · rw [natToChars_decomp n h10]
    simp

theorem digitsVal_natToChars (n : Nat) : digitsVal (natToChars n) = n := by
  induction n using Nat.strong_induction_on with
  | _ n ih =>
    by_cases h10 : n < 10
    · rw [natToChars]
      cases hn : n with
      | zero => rfl
      | succ m =>
        rw [natToCharsF, if_pos (by omega)]
        simp only [digitsVal, List.foldl_cons, List.foldl_nil]
        rw [char_toNat_ofNat _ (by omega)]
        omega
    · rw [natToChars_decomp n h10, digitsVal, List.foldl_append]
      have h1 : List.foldl (fun acc c => acc * 10 + (c.toNat - 48)) 0 (natToChars (n / 10)) =
          n / 10 := ih (n / 10) (by omega)
      rw [h1]
      show n / 10 * 10 + ((Char.ofNat (48 + n % 10)).toNat - 48) = n
      rw [char_toNat_ofNat _ (by omega)]
      omega

theorem parseU16_natToChars (p : Nat) (h : p < 65536) :
    parseU16 (natToChars p) = some p := by
  have hd := natToChars_digits p
  have hne := natToChars_ne_nil p
  have hhead : ¬(natToChars p).head? = some '+' := by
    cases hl : natToChars p with
    | nil => simp
    | cons y ys =>
      simp only [List.head?_cons, ne_eq, Option.some.injEq]
      intro he
      have hy := hd y (by simp [hl])
      subst he
      revert hy
      decide
  have hall : (natToChars p).all (fun c => decide ('0' ≤ c ∧ c ≤ '9')) = true := by
    rw [List.all_eq_true]
    intro x hx
    have := hd x hx
    simp only [decide_eq_true_eq]
    exact this
  simp only [parseU16]
  rw [if_neg hhead, if_neg hne, if_pos hall, digitsVal_natToChars, if_pos h]

/-! Bridging lemmas used by several claim proofs. -/

theorem defaultPort_ss (sch : Str) (h : "ss".data.isPrefixOf sch) :
    defaultPort sch = none := by
  rw [List.isPrefixOf_iff_prefix] at h
  obtain ⟨t, ht⟩ := h
  have hsch : sch = 's' :: 's' :: t := by rw [← ht]; rfl
  subst hsch
  rw [defaultPort]
  rw [if_neg (by simp), if_neg (by simp), if_neg (by simp), if_neg (by simp),
    if_neg (by simp)]

theorem portOrKnownDefault_ss (u : UrlModel) (h : "ss".data.isPrefixOf u.scheme) :
    u.portOrKnownDefault = u.port := by
  rw [UrlModel.portOrKnownDefault]
  cases hp : u.port with
  | some p => rfl
  | none => simp [defaultPort_ss u.scheme h]

theorem parse_legacy_eq (s : Str) (u : UrlModel) (hu : urlParse s = some u) :
    SSConfig.parse_legacy_base64 s =
      (match SSConfig.validate_protocol u with
      | .error e => .error e
      | .ok _ =>
        match u.hostStr with
        | none => .error .InvalidUrl
        | some encoded =>
          match b64Decode encoded with
          | none => .error .InvalidUrl
          | some decoded =>
            match utf8Decode decoded with
            | none => .error .InvalidUrl
            | some ds0 =>
              match findIdxCh ':' (trimEndCh '=' ds0) with
              | none => .error .InvalidUrl
              | some ci =>
                match Method.tryFrom ((trimEndCh '=' ds0).take ci) with
                | .error _ => .error .InvalidMethod
                | .ok m =>
                  match rfindIdxCh '@'
                      (trimStartCh ':' ((trimEndCh '=' ds0).drop ci)) with
                  | none => .error .InvalidUrl
                  | some ai =>
                    match rfindIdxCh ':' (trimStartCh '@'
                        ((trimStartCh ':' ((trimEndCh '=' ds0).drop ci)).drop ai)) with
                    | none => .error .InvalidUrl
                    | some pi2 =>
                      match parseU16 (trimStartCh ':' ((trimStartCh '@'
                          ((trimStartCh ':'
                            ((trimEndCh '=' ds0).drop ci)).drop ai)).drop pi2)) with
                      | none => .error .InvalidPort
                      | some port =>
                        match Host.parse ((trimStartCh '@'
                            ((trimStartCh ':'
                              ((trimEndCh '=' ds0).drop ci)).drop ai)).take pi2) with
                        | none => .error .InvalidHost
                        | some host =>
                          .ok { host := host, port := port, method := m,
                                password :=
                                  (trimStartCh ':'
                                    ((trimEndCh '=' ds0).drop ci)).take ai,
                                tag := SSConfig.extract_hash u.fragment,
                                extra := none } :
        Except SSParseError SSConfig) := by
  simp only [SSConfig.parse_legacy_base64]
  rw [hu]

theorem dropWhile_head_of_findIdxCh (c : Char) (l : Str) (i : Nat)
    (h : findIdxCh c l = some i) : ∃ rest, l.dropWhile (· ≠ c) = c :: rest := by
  induction l generalizing i with
  | nil => simp [findIdxCh] at h
  | cons a t ih =>
    by_cases hac : a = c
    · subst hac
      exact ⟨t, by simp [List.dropWhile_cons]⟩
    · simp only [findIdxCh, hac, if_false, ite_false, Option.map_eq_some'] at h
      obtain ⟨j, hj, _⟩ := h
      obtain ⟨rest, hrest⟩ := ih j hj
      refine ⟨rest, ?_⟩
      rw [List.dropWhile_cons, if_pos (by simp [hac])]
      exact hrest

/-! Helper lemmas for the round-trip proofs. -/

theorem take_append_cons {α : Type} (xs : List α) (y : α) (ys : List α) :
    (xs ++ y :: ys).take xs.length = xs := by
  exact List.take_left xs (y :: ys)

theorem drop_append_cons {α : Type} (xs : List α) (y : α) (ys : List α) :
    (xs ++ y :: ys).drop (xs.length + 1) = ys := by
  have h : xs ++ y :: ys = (xs ++ [y]) ++ ys := by simp
  have h2 : (xs ++ [y]).length = xs.length + 1 := by simp
  rw [h, ← h2, List.drop_left]

theorem head?_append_of_ne_nil {α : Type} (xs ys : List α) (h : xs ≠ []) :
    (xs ++ ys).head? = xs.head? := by
  cases xs with
  | nil => exact absurd rfl h
  | cons a t => simp

theorem takeWhile_all {p : Char → Bool} (l : Str) (h : ∀ x ∈ l, p x = true) :
    l.takeWhile p = l := by
  induction l with
  | nil => rfl
  | cons a t ih =>
    rw [List.takeWhile_cons, if_pos (h a (by simp)), ih (fun x hx => h x (by simp [hx]))]

theorem dropWhile_all {p : Char → Bool} (l : Str) (h : ∀ x ∈ l, p x = true) :
    l.dropWhile p = [] := by
  induction l with
  | nil => rfl
  | cons a t ih =>
    rw [List.dropWhile_cons, if_pos (h a (by simp)), ih (fun x hx => h x (by simp [hx]))]

theorem getLast_digits (n : Nat) :
    ∃ d, (natToChars n).getLast? = some d ∧ '0' ≤ d ∧ d ≤ '9' := by
  cases hl : natToChars n with
  | nil => exact absurd hl (natToChars_ne_nil n)
  | cons a t =>
    refine ⟨(a :: t).getLast (by simp), List.getLast?_eq_getLast _ _, ?_⟩
    have hm := List.getLast_mem (l := a :: t) (by simp)
    exact natToChars_digits n _ (by rw [hl]; exact hm)

/-- Characters of the stripped base64 userinfo: alphabet characters only. -/
theorem mem_encode_user_info (m : Method) (pw : Str) (x : Char)
    (hx : x ∈ SSConfig.encode_user_info m pw) : ∃ n, n < 64 ∧ x = b64Char n := by
  rw [SSConfig.encode_user_info,
    trimEnd_b64Encode _ (utf8Encode_lt256 (m.as_str ++ ':' :: pw))] at hx
  exact mem_b64EncodeNoPad _ (utf8Encode_lt256 _) x hx

theorem method_as_str_no_colon : ∀ m : Method, ':' ∉ m.as_str := by
  intro m
  cases m <;> decide

theorem method_tryFrom_as_str : ∀ m : Method, Method.tryFrom m.as_str = .ok m := by
  intro m
  cases m <;> decide

/-- Characters of a percent-encoded tag: alphanumeric, `%` or hex digits;
    in particular none of the URI delimiters. -/
theorem mem_pctEncodeBytes (bs : List Nat) (h : ∀ b ∈ bs, b < 256) (x : Char)
    (hx : x ∈ pctEncodeBytes bs) :
    x ≠ '#' ∧ x ≠ '@' ∧ x ≠ '=' := by
  rw [pctEncodeBytes] at hx
  simp only [List.mem_flatMap] at hx
  obtain ⟨b, hb, hbx⟩ := hx
  have hblt := h b hb
  by_cases ha : isAlnumByte b
  · rw [if_pos ha] at hbx
    simp only [List.mem_singleton] at hbx
    subst hbx
    have hb128 : b < 128 := by
      simp only [isAlnumByte, Bool.or_eq_true, Bool.and_eq_true, decide_eq_true_eq] at ha
      omega
    have htn : (Char.ofNat b).toNat = b := char_toNat_ofNat b (by omega)
    simp only [isAlnumByte, Bool.or_eq_true, Bool.and_eq_true, decide_eq_true_eq] at ha
    refine ⟨?_, ?_, ?_⟩
    · intro he
      have hbv : b = ('#' : Char).toNat := by rw [← htn]; exact congrArg Char.toNat he
      rw [show ('#' : Char).toNat = 35 from rfl] at hbv
      omega
    · intro he
      have hbv : b = ('@' : Char).toNat := by rw [← htn]; exact congrArg Char.toNat he
      rw [show ('@' : Char).toNat = 64 from rfl] at hbv
      omega
    · intro he
      have hbv : b = ('=' : Char).toNat := by rw [← htn]; exact congrArg Char.toNat he
      rw [show ('=' : Char).toNat = 61 from rfl] at hbv
      omega
  · rw [if_neg ha] at hbx
    simp only [List.mem_cons, List.not_mem_nil, or_false] at hbx
    have hdig : ∀ k, k < 16 → hexDig k ≠ '#' ∧ hexDig k ≠ '@' ∧ hexDig k ≠ '=' := by decide
    rcases hbx with rfl | rfl | rfl
    · refine ⟨by decide, by decide, by decide⟩
    · exact hdig (b / 16) (by omega)
    · exact hdig (b % 16) (by omega)

/-! Facts about a string accepted by `Host.parse`. -/

theorem char_eq_iff_toNat (c d : Char) : c = d ↔ c.toNat = d.toNat := by
  constructor
  · intro h; rw [h]
  · intro h
    apply Char.ext
    exact UInt32.toNat.inj h

theorem forbiddenDomain_implies_opaque (c : Char)
    (h : forbiddenDomainChar c = false) : forbiddenOpaqueChar c = false := by
  simp only [forbiddenDomainChar, forbiddenOpaqueChar, Bool.or_eq_false_iff,
    decide_eq_false_iff_not, char_eq_iff_toNat,
    show (' ' : Char).toNat = 32 from rfl, show ('#' : Char).toNat = 35 from rfl,
    show ('%' : Char).toNat = 37 from rfl, show ('/' : Char).toNat = 47 from rfl,
    show (':' : Char).toNat = 58 from rfl, show ('<' : Char).toNat = 60 from rfl,
    show ('>' : Char).toNat = 62 from rfl, show ('?' : Char).toNat = 63 from rfl,
    show ('@' : Char).toNat = 64 from rfl, show ('[' : Char).toNat = 91 from rfl,
    show ('\\' : Char).toNat = 92 from rfl, show (']' : Char).toNat = 93 from rfl,
    show ('^' : Char).toNat = 94 from rfl, show ('|' : Char).toNat = 124 from rfl] at h ⊢
  omega

theorem char_le_toNat (c d : Char) : c ≤ d ↔ c.toNat ≤ d.toNat := by
  rw [Char.le_def, UInt32.le_def, BitVec.le_def]
  exact Iff.rfl

theorem digit_char_facts (c : Char) (h1 : '0' ≤ c) (h2 : c ≤ '9') :
    c ≠ '#' ∧ c ≠ '@' ∧ c ≠ ':' ∧ c ≠ '/' ∧ c ≠ '?' ∧ c ≠ '[' ∧ c ≠ ']' ∧ c ≠ '=' ∧
    forbiddenOpaqueChar c = false := by
  rw [char_le_toNat] at h1 h2
  simp only [show ('0' : Char).toNat = 48 from rfl, show ('9' : Char).toNat = 57 from rfl]
    at h1 h2
  simp only [ne_eq, char_eq_iff_toNat, forbiddenOpaqueChar, Bool.or_eq_false_iff,
    decide_eq_false_iff_not,
    show (' ' : Char).toNat = 32 from rfl, show ('#' : Char).toNat = 35 from rfl,
    show ('/' : Char).toNat = 47 from rfl, show (':' : Char).toNat = 58 from rfl,
    show ('<' : Char).toNat = 60 from rfl, show ('=' : Char).toNat = 61 from rfl,
    show ('>' : Char).toNat = 62 from rfl, show ('?' : Char).toNat = 63 from rfl,
    show ('@' : Char).toNat = 64 from rfl, show ('[' : Char).toNat = 91 from rfl,
    show ('\\' : Char).toNat = 92 from rfl, show (']' : Char).toNat = 93 from rfl,
    show ('^' : Char).toNat = 94 from rfl, show ('|' : Char).toNat = 124 from rfl]
  omega

theorem hexOrColon_char_facts (c : Char) (h : (isHexDigit c || c = ':') = true) :
    c ≠ '@' ∧ c ≠ '/' ∧ c ≠ '?' ∧ c ≠ '#' ∧ c ≠ '[' ∧ c ≠ ']' ∧
    forbiddenOpaqueChar c = false := by
  have hrange : (48 ≤ c.toNat ∧ c.toNat ≤ 57) ∨ (65 ≤ c.toNat ∧ c.toNat ≤ 70) ∨
      (97 ≤ c.toNat ∧ c.toNat ≤ 102) ∨ c.toNat = 58 := by
    rcases Bool.or_eq_true_iff.mp h with hh | hc
    · rw [isHexDigit, hexVal] at hh
      by_cases g1 : '0' ≤ c ∧ c ≤ '9'
      · obtain ⟨a1, a2⟩ := g1
        rw [char_le_toNat] at a1 a2
        left
        exact ⟨a1, a2⟩
      · rw [if_neg g1] at hh
        by_cases g2 : 'A' ≤ c ∧ c ≤ 'F'
        · obtain ⟨a1, a2⟩ := g2
          rw [char_le_toNat] at a1 a2
          right; left
          exact ⟨a1, a2⟩
        · rw [if_neg g2] at hh
          by_cases g3 : 'a' ≤ c ∧ c ≤ 'f'
          · obtain ⟨a1, a2⟩ := g3
            rw [char_le_toNat] at a1 a2
            right; right; left
            exact ⟨a1, a2⟩
          · rw [if_neg g3] at hh
            simp at hh
    · have hc' : c = ':' := of_decide_eq_true hc
      subst hc'
      right; right; right
      rfl
  simp only [show ('A' : Char).toNat = 65 from rfl, show ('F' : Char).toNat = 70 from rfl,
    show ('a' : Char).toNat = 97 from rfl, show ('f' : Char).toNat = 102 from rfl,
    show ('0' : Char).toNat = 48 from rfl, show ('9' : Char).toNat = 57 from rfl] at hrange
  simp only [ne_eq, char_eq_iff_toNat, forbiddenOpaqueChar, Bool.or_eq_false_iff,
    decide_eq_false_iff_not,
    show (' ' : Char).toNat = 32 from rfl, show ('#' : Char).toNat = 35 from rfl,
    show ('/' : Char).toNat = 47 from rfl,
    show ('<' : Char).toNat = 60 from rfl,
    show ('>' : Char).toNat = 62 from rfl, show ('?' : Char).toNat = 63 from rfl,
    show ('@' : Char).toNat = 64 from rfl, show ('[' : Char).toNat = 91 from rfl,
    show ('\\' : Char).toNat = 92 from rfl, show (']' : Char).toNat = 93 from rfl,
    show ('^' : Char).toNat = 94 from rfl, show ('|' : Char).toNat = 124 from rfl]
  omega

theorem domainOk_char_facts (c : Char) (h : forbiddenDomainChar c = false) :
    c ≠ '@' ∧ c ≠ '/' ∧ c ≠ '?' ∧ c ≠ '#' ∧ c ≠ ':' ∧
    forbiddenOpaqueChar c = false := by
  simp only [forbiddenDomainChar, forbiddenOpaqueChar, Bool.or_eq_false_iff,
    decide_eq_false_iff_not, ne_eq, char_eq_iff_toNat,
    show (' ' : Char).toNat = 32 from rfl, show ('#' : Char).toNat = 35 from rfl,
    show ('%' : Char).toNat = 37 from rfl, show ('/' : Char).toNat = 47 from rfl,
    show (':' : Char).toNat = 58 from rfl, show ('<' : Char).toNat = 60 from rfl,
    show ('>' : Char).toNat = 62 from rfl, show ('?' : Char).toNat = 63 from rfl,
    show ('@' : Char).toNat = 64 from rfl, show ('[' : Char).toNat = 91 from rfl,
    show ('\\' : Char).toNat = 92 from rfl, show (']' : Char).toNat = 93 from rfl,
    show ('^' : Char).toNat = 94 from rfl, show ('|' : Char).toNat = 124 from rfl] at h ⊢
  omega

theorem parseIpv6_chars (l : Str) (h : (parseIpv6 l).isSome) :
    ∀ c ∈ l, (isHexDigit c || c = ':') = true := by
  rw [parseIpv6] at h
  by_cases hall : l.all (fun c => isHexDigit c || c = ':') = true
  · intro c hc
    exact List.all_eq_true.mp hall c hc
  · rw [if_neg hall] at h
    simp at h

theorem host_parse_bracket (t : Str) :
    Host.parse ('[' :: t) =
      if t.getLast? = some ']' then (parseIpv6 t.dropLast).map Host.Ipv6 else none := rfl

/-- A string accepted by `Host.parse` is nonempty and is either a bracketed
    IPv6 literal or a text free of the forbidden domain characters. -/
theorem host_parse_facts (s : Str) (h : (Host.parse s).isSome) :
    s ≠ [] ∧
    ((∃ inner, s = '[' :: (inner ++ [']']) ∧
        (∀ c ∈ inner, (isHexDigit c || c = ':') = true) ∧ (parseIpv6 inner).isSome) ∨
     (s.head? ≠ some '[' ∧ ∀ c ∈ s, forbiddenDomainChar c = false)) := by
  by_cases hb : s.head? = some '['
  · cases s with
    | nil => simp at hb
    | cons a t =>
      simp only [List.head?_cons, Option.some.injEq] at hb
      subst hb
      rw [host_parse_bracket] at h
      by_cases hg : t.getLast? = some ']'
      · rw [if_pos hg] at h
        have ht : t ≠ [] := by
          intro he
          rw [he] at hg
          simp at hg
        have h1 : t.getLast? = some (t.getLast ht) := List.getLast?_eq_getLast t ht
        have h2 : t.getLast ht = ']' := by
          rw [h1] at hg
          exact Option.some_inj.mp hg
        have h3 : t.dropLast ++ [t.getLast ht] = t := List.dropLast_append_getLast ht
        rw [h2] at h3
        have hsome : (parseIpv6 t.dropLast).isSome := by
          rcases hp : parseIpv6 t.dropLast with _ | gs
          · rw [hp] at h
            simp at h
          · simp
        refine ⟨by simp, Or.inl ⟨t.dropLast, by rw [h3], parseIpv6_chars _ hsome, hsome⟩⟩
      · rw [if_neg hg] at h
        simp at h
  · rw [Host.parse.eq_def] at h
    rw [if_neg hb] at h
    by_cases he : s = []
    · rw [if_pos he] at h
      simp at h
    · rw [if_neg he] at h
      by_cases hf : s.any forbiddenDomainChar = true
      · rw [if_pos hf] at h
        simp at h
      · rw [if_neg hf] at h
        refine ⟨he, Or.inr ⟨hb, ?_⟩⟩
        intro c hc
        have hf' : s.any forbiddenDomainChar = false := by
          simpa using hf
        simpa using List.any_eq_false.mp hf' c hc

/-- Characters of a string accepted by `Host.parse` avoid the URI delimiters. -/
theorem host_chars (s : Str) (h : (Host.parse s).isSome) :
    ∀ x ∈ s, x ≠ '@' ∧ x ≠ '/' ∧ x ≠ '?' ∧ x ≠ '#' := by
  obtain ⟨hne, hcase⟩ := host_parse_facts s h
  intro x hx
  rcases hcase with ⟨inner, hs, hchars, _⟩ | ⟨_, hdom⟩
  · subst hs
    rcases List.mem_cons.mp hx with rfl | hx2
    · exact ⟨by decide, by decide, by decide, by decide⟩
    · rcases List.mem_append.mp hx2 with hxi | hxr
      · have hf := hexOrColon_char_facts x (hchars x hxi)
        exact ⟨hf.1, hf.2.1, hf.2.2.1, hf.2.2.2.1⟩
      · have hxe : x = ']' := by simpa using hxr
        subst hxe
        exact ⟨by decide, by decide, by decide, by decide⟩
  · have hf := domainOk_char_facts x (hdom x hx)
    exact ⟨hf.1, hf.2.1, hf.2.2.1, hf.2.2.2.1⟩

theorem host_head_ne (s : Str) (h : (Host.parse s).isSome) : s.head? ≠ some '@' := by
  cases s with
  | nil => simp
  | cons a t =>
    simp only [List.head?_cons, ne_eq, Option.some.injEq]
    intro he
    subst he
    exact (host_chars _ h '@' (by simp)).1 rfl

theorem parseHostPort_bracket_eq (t : Str) :
    parseHostPort ('[' :: t) =
      (match findIdxCh ']' t with
       | none => none
       | some j =>
         if (parseIpv6 (t.take j)).isSome then
           if t.drop (j + 1) = [] then some ('[' :: t.take j ++ [']'], none)
           else if (t.drop (j + 1)).head? = some ':' then
             let ps := (t.drop (j + 1)).tail
             if ps = [] then some ('[' :: t.take j ++ [']'], none)
             else if ps.all (fun c => '0' ≤ c ∧ c ≤ '9') ∧ digitsVal ps < 65536 then
               some ('[' :: t.take j ++ [']'], some (digitsVal ps))
             else none
           else none
         else none) := rfl

/-- Appending `:` and a valid decimal port to a `Host.parse`-accepted host
    splits back into the host text and the port value. -/
theorem parseHostPort_of_host (s portR : Str) (hh : (Host.parse s).isSome)
    (hpne : portR ≠ [])
    (hpd : ∀ x ∈ portR, '0' ≤ x ∧ x ≤ '9')
    (hplt : digitsVal portR < 65536) :
    parseHostPort (s ++ ':' :: portR) = some (s, some (digitsVal portR)) := by
  have hall : portR.all (fun c => decide ('0' ≤ c ∧ c ≤ '9')) = true :=
    List.all_eq_true.mpr (fun x hx => decide_eq_true (hpd x hx))
  obtain ⟨hne, hcase⟩ := host_parse_facts s hh
  rcases hcase with ⟨inner, hs, hchars, hv6⟩ | ⟨hhead, hdom⟩
  · subst hs
    have hform : ('[' :: (inner ++ [']'])) ++ ':' :: portR =
        '[' :: (inner ++ ']' :: ':' :: portR) := by simp
    rw [hform, parseHostPort_bracket_eq]
    have hfj : findIdxCh ']' (inner ++ ']' :: ':' :: portR) = some inner.length :=
      findIdxCh_append_cons ']' inner _
        (fun hm => (hexOrColon_char_facts _ (hchars _ hm)).2.2.2.2.2.1 rfl)
    simp only [hfj]
    rw [take_append_cons, drop_append_cons]
    rw [if_pos hv6]
    rw [if_neg (by simp : ¬(':' :: portR : Str) = [])]
    rw [if_pos (show (':' :: portR : Str).head? = some ':' by simp)]
    simp only [List.tail_cons]
    rw [if_neg hpne]
    rw [if_pos ⟨hall, hplt⟩]
    simp
  · rw [parseHostPort.eq_def]
    have hh2 : ¬(s ++ ':' :: portR).head? = some '[' := by
      rw [head?_append_of_ne_nil s _ hne]
      exact hhead
    rw [if_neg hh2]
    have hfi : findIdxCh ':' (s ++ ':' :: portR) = some s.length :=
      findIdxCh_append_cons ':' s portR
        (fun hm => (domainOk_char_facts _ (hdom _ hm)).2.2.2.2.1 rfl)
    simp only [hfi]
    rw [take_append_cons, drop_append_cons]
    rw [if_neg hne]
    have hany : s.any forbiddenOpaqueChar = false :=
      List.any_eq_false.mpr (fun x hx => by
        rw [(domainOk_char_facts _ (hdom _ hx)).2.2.2.2.2]
        simp)
    rw [if_neg (by rw [hany]; simp : ¬s.any forbiddenOpaqueChar = true)]
    rw [if_neg hpne]
    rw [if_pos ⟨hall, hplt⟩]

theorem urlParse_ss_shape (rest : Str) :
    urlParse ('s' :: 's' :: ':' :: rest) = urlParseAuthority "ss".data rest := rfl

/-- Parsing the exact shape produced by `to_sip002`: scheme `ss`, colon-free
    userinfo, a host accepted by `Host.parse`, a decimal port, the path `/`,
    and an optional fragment. -/
theorem urlParseAuthority_structured (ui hostR portR : Str) (fragOpt : Option Str)
    (hui : ∀ x ∈ ui, x ≠ ':' ∧ x ≠ '/' ∧ x ≠ '?' ∧ x ≠ '#')
    (hhost : (Host.parse hostR).isSome)
    (hpne : portR ≠ []) (hpd : ∀ x ∈ portR, '0' ≤ x ∧ x ≤ '9')
    (hplt : digitsVal portR < 65536)
    (hfrag : ∀ fb, fragOpt = some fb → '#' ∉ fb) :
    urlParseAuthority "ss".data
        ('/' :: '/' :: (ui ++ '@' :: (hostR ++ ':' :: (portR ++ '/' ::
          fragOpt.elim [] (fun fb => '#' :: fb))))) =
      some { scheme := "ss".data, username := ui, userinfoPassword := none,
             hostStr := some hostR, port := some (digitsVal portR), path := ['/'],
             query := none, fragment := fragOpt } := by
  have hhc := host_chars hostR hhost
  have hnohash : '#' ∉ '/' :: '/' :: (ui ++ '@' :: (hostR ++ ':' :: (portR ++ ['/']))) := by
    intro hm
    simp only [List.mem_cons, List.mem_append, List.mem_singleton, List.not_mem_nil,
      or_false] at hm
    rcases hm with h | h | h | h | h | h | h | h <;>
      first
        | exact absurd h (by decide)
        | exact (hui _ h).2.2.2 rfl
        | exact (hhc _ h).2.2.2 rfl
        | exact (digit_char_facts _ (hpd _ h).1 (hpd _ h).2).1 rfl
  have hpA : ∀ x ∈ ui ++ '@' :: (hostR ++ ':' :: portR),
      (fun c => decide ¬(c = '/' ∨ c = '?')) x = true := by
    intro x hx
    simp only [List.mem_append, List.mem_cons] at hx
    apply decide_eq_true
    intro hor
    rcases hx with h | h | h | h | h <;> rcases hor with rfl | rfl <;>
      first
        | exact (hui _ h).2.1 rfl
        | exact (hui _ h).2.2.1 rfl
        | exact absurd h (by decide)
        | exact (hhc _ h).2.1 rfl
        | exact (hhc _ h).2.2.1 rfl
        | exact (digit_char_facts _ (hpd _ h).1 (hpd _ h).2).2.2.2.1 rfl
        | exact (digit_char_facts _ (hpd _ h).1 (hpd _ h).2).2.2.2.2.1 rfl
  have hnoat : '@' ∉ hostR ++ ':' :: portR := by
    intro hm
    simp only [List.mem_append, List.mem_cons] at hm
    rcases hm with h | h | h <;>
      first
        | exact (hhc _ h).1 rfl
        | exact absurd h (by decide)
        | exact (digit_char_facts _ (hpd _ h).1 (hpd _ h).2).2.1 rfl
  have hrf : rfindIdxCh '@' (ui ++ '@' :: (hostR ++ ':' :: portR)) = some ui.length :=
    rfindIdxCh_append_cons '@' ui _ hnoat
  have hci : findIdxCh ':' ui = none := findIdxCh_eq_none ':' ui (fun hm => (hui _ hm).1 rfl)
  cases fragOpt with
  | none =>
    simp only [Option.elim]
    rw [urlParseAuthority]
    have hfind : findIdxCh '#'
        ('/' :: '/' :: (ui ++ '@' :: (hostR ++ ':' :: (portR ++ '/' :: [])))) = none :=
      findIdxCh_eq_none _ _ hnohash
    rw [hfind]
    simp only [Option.elim]
    rw [if_pos (show ('/' :: '/' :: (ui ++ '@' :: (hostR ++ ':' :: (portR ++ '/' :: [])))
          : Str).take 2 = ['/', '/'] from rfl)]
    rw [show (('/' :: '/' :: (ui ++ '@' :: (hostR ++ ':' :: (portR ++ '/' :: []))))
          : Str).drop 2 = ui ++ '@' :: (hostR ++ ':' :: (portR ++ '/' :: [])) from rfl]
    rw [show ui ++ '@' :: (hostR ++ ':' :: (portR ++ '/' :: [])) =
        (ui ++ '@' :: (hostR ++ ':' :: portR)) ++ '/' :: [] by simp]
    rw [takeWhile_append_cons _ '/' [] hpA (by decide),
      dropWhile_append_cons _ '/' [] hpA (by decide)]
    simp only [hrf]
    rw [take_append_cons, drop_append_cons]
    rw [if_neg (show ¬(hostR ++ ':' :: portR = []) by simp)]
    rw [parseHostPort_of_host hostR portR hhost hpne hpd hplt]
    rw [hci]
    simp [Option.elim, show findIdxCh '?' (['/'] : Str) = none from rfl]
  | some fb =>
    simp only [Option.elim]
    rw [urlParseAuthority]
    rw [show '/' :: '/' :: (ui ++ '@' :: (hostR ++ ':' :: (portR ++ '/' :: '#' :: fb))) =
        ('/' :: '/' :: (ui ++ '@' :: (hostR ++ ':' :: (portR ++ ['/'])))) ++ '#' :: fb
        by simp]
    have hfind : findIdxCh '#'
        (('/' :: '/' :: (ui ++ '@' :: (hostR ++ ':' :: (portR ++ ['/'])))) ++ '#' :: fb) =
        some ('/' :: '/' :: (ui ++ '@' :: (hostR ++ ':' :: (portR ++ ['/'])))).length :=
      findIdxCh_append_cons '#' _ fb hnohash
    rw [hfind]
    simp only [Option.elim]
    rw [take_append_cons, drop_append_cons]
    rw [if_pos (show ('/' :: '/' :: (ui ++ '@' :: (hostR ++ ':' :: (portR ++ ['/'])))
          : Str).take 2 = ['/', '/'] from rfl)]
    rw [show (('/' :: '/' :: (ui ++ '@' :: (hostR ++ ':' :: (portR ++ ['/']))))
          : Str).drop 2 = ui ++ '@' :: (hostR ++ ':' :: (portR ++ ['/'])) from rfl]
    rw [show ui ++ '@' :: (hostR ++ ':' :: (portR ++ ['/'])) =
        (ui ++ '@' :: (hostR ++ ':' :: portR)) ++ '/' :: [] by simp]
    rw [takeWhile_append_cons _ '/' [] hpA (by decide),
      dropWhile_append_cons _ '/' [] hpA (by decide)]
    simp only [hrf]
    rw [take_append_cons, drop_append_cons]
    rw [if_neg (show ¬(hostR ++ ':' :: portR = []) by simp)]
    rw [parseHostPort_of_host hostR portR hhost hpne hpd hplt]
    rw [hci]
    simp [Option.elim, show findIdxCh '?' (['/'] : Str) = none from rfl]

theorem parseHostPort_opaque (B : Str)
    (hB : ∀ x ∈ B, x ≠ ':' ∧ x ≠ '[' ∧ forbiddenOpaqueChar x = false) :
    parseHostPort B = some (B, none) := by
  rw [parseHostPort.eq_def]
  have hhead : ¬B.head? = some '[' := by
    cases B with
    | nil => simp
    | cons a t =>
      simp only [List.head?_cons, Option.some.injEq]
      intro he
      subst he
      exact (hB '[' (by simp)).2.1 rfl
  rw [if_neg hhead]
  have hfi : findIdxCh ':' B = none := findIdxCh_eq_none ':' B (fun hm => (hB _ hm).1 rfl)
  simp only [hfi]
  have hany : B.any forbiddenOpaqueChar = false :=
    List.any_eq_false.mpr (fun x hx => by
      rw [(hB _ hx).2.2]
      simp)
  rw [if_neg (by rw [hany]; simp : ¬B.any forbiddenOpaqueChar = true)]

/-- Parsing the exact shape produced by `to_legacy_base64_encoded`: scheme
    `ss`, an opaque delimiter-free blob as the host, and an optional
    fragment. -/
theorem urlParseAuthority_opaque (B : Str) (fragOpt : Option Str)
    (hB : ∀ x ∈ B, x ≠ '/' ∧ x ≠ '?' ∧ x ≠ '#' ∧ x ≠ '@' ∧ x ≠ ':' ∧ x ≠ '[' ∧
        forbiddenOpaqueChar x = false)
    (hfrag : ∀ fb, fragOpt = some fb → '#' ∉ fb) :
    urlParseAuthority "ss".data
        ('/' :: '/' :: (B ++ fragOpt.elim [] (fun fb => '#' :: fb))) =
      some { scheme := "ss".data, username := [], userinfoPassword := none,
             hostStr := some B, port := none, path := [], query := none,
             fragment := fragOpt } := by
  have hnohash : '#' ∉ '/' :: '/' :: B := by
    intro hm
    simp only [List.mem_cons] at hm
    rcases hm with h | h | h
    · exact absurd h (by decide)
    · exact absurd h (by decide)
    · exact (hB _ h).2.2.1 rfl
  have hpB : ∀ x ∈ B, (fun c => decide ¬(c = '/' ∨ c = '?')) x = true := by
    intro x hx
    apply decide_eq_true
    intro hor
    rcases hor with rfl | rfl
    · exact (hB _ hx).1 rfl
    · exact (hB _ hx).2.1 rfl
  have hrf : rfindIdxCh '@' B = none :=
    rfindIdxCh_eq_none '@' B (fun hm => (hB _ hm).2.2.2.1 rfl)
  have hpp : parseHostPort B = some (B, none) :=
    parseHostPort_opaque B (fun x hx =>
      ⟨(hB _ hx).2.2.2.2.1, (hB _ hx).2.2.2.2.2.1, (hB _ hx).2.2.2.2.2.2⟩)
  cases fragOpt with
  | none =>
    simp only [Option.elim, List.append_nil]
    rw [urlParseAuthority]
    have hfind : findIdxCh '#' ('/' :: '/' :: B) = none := findIdxCh_eq_none _ _ hnohash
    rw [hfind]
    simp only [Option.elim]
    rw [if_pos (show (('/' :: '/' :: B) : Str).take 2 = ['/', '/'] from rfl)]
    rw [show ((('/' :: '/' :: B) : Str)).drop 2 = B from rfl]
    rw [takeWhile_all B hpB, dropWhile_all B hpB]
    simp only [hrf]
    rw [hpp]
    simp [Option.elim, findIdxCh]
  | some fb =>
    simp only [Option.elim]
    rw [urlParseAuthority]
    rw [show '/' :: '/' :: (B ++ '#' :: fb) = ('/' :: '/' :: B) ++ '#' :: fb by simp]
    have hfind : findIdxCh '#' (('/' :: '/' :: B) ++ '#' :: fb) =
        some ('/' :: '/' :: B).length :=
      findIdxCh_append_cons '#' _ fb hnohash
    rw [hfind]
    simp only [Option.elim]
    rw [take_append_cons, drop_append_cons]
    rw [if_pos (show (('/' :: '/' :: B) : Str).take 2 = ['/', '/'] from rfl)]
    rw [show ((('/' :: '/' :: B) : Str)).drop 2 = B from rfl]
    rw [takeWhile_all B hpB, dropWhile_all B hpB]
    simp only [hrf]
    rw [hpp]
    simp [Option.elim, findIdxCh]

theorem parse_sip002_eq (s : Str) (u : UrlModel)
    (hu : urlParse (SSConfig.remove_unsafe_padding s) = some u) :
    SSConfig.parse_sip002 s =
      (match SSConfig.validate_protocol u with
       | .error e => .error e
       | .ok _ =>
         match SSConfig.extract_host u with
         | .error e => .error e
         | .ok host =>
           match SSConfig.extract_port u with
           | .error e => .error e
           | .ok port =>
             match SSConfig.extract_method_and_password u.username with
             | .error e => .error e
             | .ok mp =>
               .ok { host := host, port := port, method := mp.1, password := mp.2,
                     tag := SSConfig.extract_hash u.fragment,
                     extra := if SSConfig.extract_query u = [] then none
                              else some (SSConfig.extract_query u) } :
         Except SSParseError SSConfig) := by
  simp only [SSConfig.parse_sip002]
  rw [hu]

theorem validate_protocol_ss (u : UrlModel) (h : u.scheme = "ss".data) :
    SSConfig.validate_protocol u = .ok () := by
  simp only [SSConfig.validate_protocol, h]
  rfl

theorem extract_host_ok (u : UrlModel) (s : Str) (h : Host) (h1 : u.hostStr = some s)
    (h2 : Host.parse s = some h) : SSConfig.extract_host u = .ok h := by
  simp only [SSConfig.extract_host, h1, h2]

theorem extract_port_ok (u : UrlModel) (p : Nat) (h1 : u.port = some p) :
    SSConfig.extract_port u = .ok p := by
  simp only [SSConfig.extract_port, UrlModel.portOrKnownDefault, h1]

theorem extract_query_empty (u : UrlModel) (h : u.query = none) :
    SSConfig.extract_query u = [] := by
  rw [SSConfig.extract_query, h]
  rfl

/-- Decoding the serialized userinfo recovers the method and a colon-free
    password. -/
theorem extract_mp_encode (m : Method) (pw : Str) (hpw : ':' ∉ pw) :
    SSConfig.extract_method_and_password (SSConfig.encode_user_info m pw) =
      .ok (m, pw) := by
  simp only [SSConfig.extract_method_and_password]
  have h1 : b64Decode (SSConfig.encode_user_info m pw) =
      some (utf8Encode (m.as_str ++ ':' :: pw)) := by
    rw [SSConfig.encode_user_info]
    exact b64Decode_encode _ (utf8Encode_lt256 _)
  simp only [h1, utf8Decode_encode]
  have hsplit : splitCh ':' (m.as_str ++ ':' :: pw) = [m.as_str, pw] := by
    rw [splitCh_append_cons ':' _ _ (method_as_str_no_colon m),
      splitCh_of_not_mem ':' pw hpw]
  simp only [hsplit, List.head?_cons, method_tryFrom_as_str m]
  rfl

/-- `parse_sip002` on an input whose URL has the exact component shape produced
    by `to_sip002`. -/
theorem parse_sip002_of_url (s ui hostR : Str) (p : Nat) (fr : Option Str) (h : Host)
    (hu : urlParse (SSConfig.remove_unsafe_padding s) =
      some { scheme := "ss".data, username := ui, userinfoPassword := none,
             hostStr := some hostR, port := some p, path := ['/'], query := none,
             fragment := fr })
    (hh : Host.parse hostR = some h) :
    SSConfig.parse_sip002 s =
      (match SSConfig.extract_method_and_password ui with
       | .error e => .error e
       | .ok mp => .ok { host := h, port := p, method := mp.1, password := mp.2,
                         tag := SSConfig.extract_hash fr, extra := none } :
        Except SSParseError SSConfig) := by
  rw [parse_sip002_eq _ _ hu]
  simp only [validate_protocol_ss
      { scheme := "ss".data, username := ui, userinfoPassword := none,
        hostStr := some hostR, port := some p, path := ['/'], query := none,
        fragment := fr } rfl,
    extract_host_ok
      { scheme := "ss".data, username := ui, userinfoPassword := none,
        hostStr := some hostR, port := some p, path := ['/'], query := none,
        fragment := fr } hostR h rfl hh,
    extract_port_ok
      { scheme := "ss".data, username := ui, userinfoPassword := none,
        hostStr := some hostR, port := some p, path := ['/'], query := none,
        fragment := fr } p rfl,
    extract_query_empty
      { scheme := "ss".data, username := ui, userinfoPassword := none,
        hostStr := some hostR, port := some p, path := ['/'], query := none,
        fragment := fr } rfl]
  cases hmp : SSConfig.extract_method_and_password ui with
  | error e => simp only [hmp]
  | ok mp =>
    simp only [hmp]
    rfl

/-- C3: every one of the 19 canonical method tokens parses to a `Method` whose
    `as_str` rendering is that token, and every other string fails with
    `UnknownMethod` (exact match, no trimming, no case folding). -/
theorem c3_method_registry_exhaustive (s : Str) :
    (s ∈ canonicalTokens → (Method.tryFrom s).map Method.as_str = .ok s) ∧
    (s ∉ canonicalTokens → Method.tryFrom s = .error .UnknownMethod) := by
  constructor
  · intro h
    fin_cases h <;> decide
  · intro h
    simp only [canonicalTokens, List.mem_cons, List.not_mem_nil, or_false, not_or] at h
    obtain ⟨h1, h2, h3, h4, h5, h6, h7, h8, h9, h10, h11, h12, h13, h14, h15, h16, h17,
      h18, h19⟩ := h
    simp [Method.tryFrom, h1, h2, h3, h4, h5, h6, h7, h8, h9, h10, h11, h12, h13, h14,
      h15, h16, h17, h18, h19]

/-- Witness for C3 at a canonical token and at a non-token. -/
theorem c3_method_registry_exhaustive_witness :
    (Method.tryFrom "rc4-md5".data).map Method.as_str = .ok "rc4-md5".data ∧
    Method.tryFrom "zzz".data = .error .UnknownMethod :=
  ⟨(c3_method_registry_exhaustive "rc4-md5".data).1 (by decide),
   (c3_method_registry_exhaustive "zzz".data).2 (by decide)⟩

/-- C2: the facade returns the structured parse result when it succeeds,
    otherwise the legacy parse result when that succeeds, and otherwise
    exactly the structured codec's error. -/
theorem c2_facade_fallback (s : Str) :
    SSConfig.parse s =
      match SSConfig.parse_sip002 s with
      | .ok c => .ok c
      | .error e =>
        match SSConfig.parse_legacy_base64 s with
        | .ok c => .ok c
        | .error _ => .error e := by
  simp only [SSConfig.parse]
  cases hs : SSConfig.parse_sip002 s with
  | ok c => simp [hs, Except.isOk, Except.toBool]
  | error e =>
    cases hl : SSConfig.parse_legacy_base64 s with
    | ok c => simp [hs, hl, Except.isOk, Except.toBool]
    | error e2 => simp [hs, hl, Except.isOk, Except.toBool]

/-- C10: an input that URL-parses with an `ss`-prefixed scheme, a valid host
    and port but an empty userinfo fails the structured parse with
    `InvalidMethod`: the empty username base64-decodes to the empty string,
    whose method segment is empty and fails the enumeration. -/
theorem c10_empty_userinfo_invalid_method (s : Str) (u : UrlModel)
    (hu : urlParse (SSConfig.remove_unsafe_padding s) = some u)
    (hsch : "ss".data.isPrefixOf u.scheme)
    (huser : u.username = [])
    (hhost : ∃ h, SSConfig.extract_host u = .ok h)
    (hport : ∃ p, SSConfig.extract_port u = .ok p) :
    SSConfig.parse_sip002 s = .error .InvalidMethod := by
  obtain ⟨hh, hhe⟩ := hhost
  obtain ⟨pp, hpe⟩ := hport
  simp only [SSConfig.parse_sip002]
  rw [hu]
  simp only [SSConfig.validate_protocol, hsch, if_true, ite_true]
  rw [hhe, hpe, huser]
  rfl

/-- Witness for C10 on an absent-userinfo URI. -/
theorem c10_empty_userinfo_invalid_method_witness :
    SSConfig.parse_sip002 "ss://192.168.100.1:8888".data = .error .InvalidMethod :=
  c10_empty_userinfo_invalid_method _
    { scheme := "ss".data, username := [], userinfoPassword := none,
      hostStr := some "192.168.100.1".data, port := some 8888, path := [],
      query := none, fragment := none }
    (by decide) (by decide) rfl ⟨Host.Ipv4 192 168 100 1, by decide⟩ ⟨8888, by decide⟩

/-- C1 counterexample: the structured round-trip fails for a valid config
    whose password contains a colon — the password comes back truncated. -/
theorem c1_counterexample :
    SSConfig.parse_sip002 (SSConfig.to_sip002
      { host := Host.Ipv4 192 168 100 1, port := 8888, method := .BfCfb,
        password := "a:b".data, tag := none, extra := none }) =
      .ok { host := Host.Ipv4 192 168 100 1, port := 8888, method := .BfCfb,
            password := "a".data, tag := none, extra := none } ∧
    ("a".data : Str) ≠ "a:b".data := by
  constructor
  · decide
  · decide

/-- C1 (amended): the structured round-trip `parse_sip002 (to_sip002 c) = Ok c`
    holds for every config whose `extra` is absent, whose port fits in 16 bits,
    whose host text re-parses to the host (canonical hosts), whose password is
    colon-free, whose base64 userinfo happens to contain no `/`, and whose tag
    is not the empty string. -/
theorem c1_amended_structured_roundtrip (c : SSConfig)
    (hextra : c.extra = none) (hport : c.port < 65536)
    (hhost : Host.parse (get_uri_formatted_host c.host) = some c.host)
    (hpw : ':' ∉ c.password)
    (hslash : '/' ∉ SSConfig.encode_user_info c.method c.password)
    (htag : c.tag ≠ some []) :
    SSConfig.parse_sip002 (SSConfig.to_sip002 c) = .ok c := by
  obtain ⟨chost, cport, cmethod, cpassword, ctag, cextra⟩ := c
  dsimp only at hextra hport hhost hpw hslash htag
  subst hextra
  have hhostSome : (Host.parse (get_uri_formatted_host chost)).isSome := by
    rw [hhost]
    rfl
  have hhc := host_chars _ hhostSome
  have hui : ∀ x ∈ SSConfig.encode_user_info cmethod cpassword,
      x ≠ ':' ∧ x ≠ '/' ∧ x ≠ '?' ∧ x ≠ '#' := by
    intro x hx
    obtain ⟨n, hn, hxe⟩ := mem_encode_user_info cmethod cpassword x hx
    have hb := b64Char_facts n hn
    subst hxe
    exact ⟨hb.2.2.1, fun he => hslash (he ▸ hx), hb.2.2.2.2.1, hb.2.2.2.1⟩
  have hEq : '=' ∉ SSConfig.encode_user_info cmethod cpassword := by
    intro hm
    obtain ⟨n, hn, hxe⟩ := mem_encode_user_info _ _ '=' hm
    exact (b64Char_facts n hn).1 hxe.symm
  have hpd : ∀ x ∈ natToChars cport, '0' ≤ x ∧ x ≤ '9' := natToChars_digits cport
  have hpne := natToChars_ne_nil cport
  have hplt : digitsVal (natToChars cport) < 65536 := by
    rw [digitsVal_natToChars]
    exact hport
  cases ctag with
  | none =>
    have hform : SSConfig.to_sip002 ⟨chost, cport, cmethod, cpassword, none, none⟩ =
        's' :: 's' :: ':' :: ('/' :: '/' ::
          (SSConfig.encode_user_info cmethod cpassword ++
            '@' :: (get_uri_formatted_host chost ++ ':' :: (natToChars cport ++ '/' ::
              (Option.elim (none : Option Str) [] (fun fb => '#' :: fb)))))) := by
      simp only [SSConfig.to_sip002, SSConfig.get_hash, Option.elim]
      simp [show ("ss://".data : Str) = 's' :: 's' :: ':' :: '/' :: '/' :: [] from rfl]
    have hu : urlParse (SSConfig.to_sip002 ⟨chost, cport, cmethod, cpassword, none, none⟩) =
        some { scheme := "ss".data,
               username := SSConfig.encode_user_info cmethod cpassword,
               userinfoPassword := none,
               hostStr := some (get_uri_formatted_host chost),
               port := some (digitsVal (natToChars cport)), path := ['/'],
               query := none, fragment := none } := by
      rw [hform, urlParse_ss_shape]
      exact urlParseAuthority_structured _ _ _ none hui hhostSome hpne hpd hplt
        (fun fb hfb => by cases hfb)
    have hnoat2 : '@' ∉ get_uri_formatted_host chost ++ ':' ::
        (natToChars cport ++ '/' :: []) := by
      intro hm
      simp only [List.mem_append, List.mem_cons, List.not_mem_nil, or_false] at hm
      rcases hm with h | h | h | h <;>
        first
          | exact (hhc _ h).1 rfl
          | exact absurd h (by decide)
          | exact (digit_char_facts _ (hpd _ h).1 (hpd _ h).2).2.1 rfl
    have hcont : containsEqAt
        (SSConfig.to_sip002 ⟨chost, cport, cmethod, cpassword, none, none⟩) = false := by
      rw [hform]
      simp only [Option.elim]
      rw [show 's' :: 's' :: ':' :: ('/' :: '/' ::
            (SSConfig.encode_user_info cmethod cpassword ++
              '@' :: (get_uri_formatted_host chost ++ ':' ::
                (natToChars cport ++ '/' :: [])))) =
          ('s' :: 's' :: ':' :: '/' :: '/' :: SSConfig.encode_user_info cmethod cpassword) ++
            '@' :: (get_uri_formatted_host chost ++ ':' :: (natToChars cport ++ '/' :: []))
          from by simp]
      refine containsEqAt_boundary _ _ ?_ (containsEqAt_of_not_mem _ hnoat2)
      intro hm
      simp only [List.mem_cons] at hm
      rcases hm with h | h | h | h | h | h <;>
        first
          | exact absurd h (by decide)
          | exact hEq h
    have hpad : SSConfig.remove_unsafe_padding
        (SSConfig.to_sip002 ⟨chost, cport, cmethod, cpassword, none, none⟩) =
        SSConfig.to_sip002 ⟨chost, cport, cmethod, cpassword, none, none⟩ := by
      rw [SSConfig.remove_unsafe_padding, if_neg (by simp [hcont])]
    rw [parse_sip002_of_url _ _ _ _ _ chost (by rw [hpad]; exact hu) hhost]
    simp only [extract_mp_encode cmethod cpassword hpw]
    simp [SSConfig.extract_hash, digitsVal_natToChars]
  | some t =>
    have htne : t ≠ [] := fun he => htag (by rw [he])
    have hform : SSConfig.to_sip002 ⟨chost, cport, cmethod, cpassword, some t, none⟩ =
        's' :: 's' :: ':' :: ('/' :: '/' ::
          (SSConfig.encode_user_info cmethod cpassword ++
            '@' :: (get_uri_formatted_host chost ++ ':' :: (natToChars cport ++ '/' ::
              '#' :: pctEncodeBytes (utf8Encode t))))) := by
      simp only [SSConfig.to_sip002, SSConfig.get_hash]
      rw [if_pos htne]
      simp [show ("ss://".data : Str) = 's' :: 's' :: ':' :: '/' :: '/' :: [] from rfl]
    have hu : urlParse (SSConfig.to_sip002 ⟨chost, cport, cmethod, cpassword, some t, none⟩) =
        some { scheme := "ss".data,
               username := SSConfig.encode_user_info cmethod cpassword,
               userinfoPassword := none,
               hostStr := some (get_uri_formatted_host chost),
               port := some (digitsVal (natToChars cport)), path := ['/'],
               query := none, fragment := some (pctEncodeBytes (utf8Encode t)) } := by
      rw [hform, urlParse_ss_shape]
      exact urlParseAuthority_structured _ _ _ (some (pctEncodeBytes (utf8Encode t)))
        hui hhostSome hpne hpd hplt
        (fun fb hfb => by
          injection hfb with hfb2
          subst hfb2
          intro hm
          exact (mem_pctEncodeBytes _ (utf8Encode_lt256 t) '#' hm).1 rfl)
    have hnoat2 : '@' ∉ get_uri_formatted_host chost ++ ':' ::
        (natToChars cport ++ '/' :: '#' :: pctEncodeBytes (utf8Encode t)) := by
      intro hm
      simp only [List.mem_append, List.mem_cons] at hm
      rcases hm with h | h | h | h | h | h <;>
        first
          | exact (hhc _ h).1 rfl
          | exact absurd h (by decide)
          | exact (digit_char_facts _ (hpd _ h).1 (hpd _ h).2).2.1 rfl
          | exact (mem_pctEncodeBytes _ (utf8Encode_lt256 t) '@' h).2.1 rfl
    have hcont : containsEqAt
        (SSConfig.to_sip002 ⟨chost, cport, cmethod, cpassword, some t, none⟩) = false := by
      rw [hform]
      rw [show 's' :: 's' :: ':' :: ('/' :: '/' ::
            (SSConfig.encode_user_info cmethod cpassword ++
              '@' :: (get_uri_formatted_host chost ++ ':' :: (natToChars cport ++ '/' ::
                '#' :: pctEncodeBytes (utf8Encode t))))) =
          ('s' :: 's' :: ':' :: '/' :: '/' :: SSConfig.encode_user_info cmethod cpassword) ++
            '@' :: (get_uri_formatted_host chost ++ ':' :: (natToChars cport ++ '/' ::
              '#' :: pctEncodeBytes (utf8Encode t)))
          from by simp]
      refine containsEqAt_boundary _ _ ?_ (containsEqAt_of_not_mem _ hnoat2)
      intro hm
      simp only [List.mem_cons] at hm
      rcases hm with h | h | h | h | h | h <;>
        first
          | exact absurd h (by decide)
          | exact hEq h
    have hpad : SSConfig.remove_unsafe_padding
        (SSConfig.to_sip002 ⟨chost, cport, cmethod, cpassword, some t, none⟩) =
        SSConfig.to_sip002 ⟨chost, cport, cmethod, cpassword, some t, none⟩ := by
      rw [SSConfig.remove_unsafe_padding, if_neg (by simp [hcont])]
    rw [parse_sip002_of_url _ _ _ _ _ chost (by rw [hpad]; exact hu) hhost]
    simp only [extract_mp_encode cmethod cpassword hpw]
    simp [SSConfig.extract_hash, digitsVal_natToChars, tag_roundtrip]

/-- Witness for the amended C1 at a concrete IPv4 config with a tag. -/
theorem c1_amended_structured_roundtrip_witness :
    Host.parse (get_uri_formatted_host (Host.Ipv4 192 168 100 1)) =
      some (Host.Ipv4 192 168 100 1) ∧
    ':' ∉ "test".data ∧
    '/' ∉ SSConfig.encode_user_info Method.Aes128Gcm "test".data ∧
    SSConfig.parse_sip002 (SSConfig.to_sip002
      { host := Host.Ipv4 192 168 100 1, port := 8888, method := .Aes128Gcm,
        password := "test".data, tag := some "Foo Bar".data, extra := none }) =
      .ok { host := Host.Ipv4 192 168 100 1, port := 8888, method := .Aes128Gcm,
            password := "test".data, tag := some "Foo Bar".data, extra := none } :=
  ⟨by decide, by decide, by decide,
   c1_amended_structured_roundtrip
     { host := Host.Ipv4 192 168 100 1, port := 8888, method := .Aes128Gcm,
       password := "test".data, tag := some "Foo Bar".data, extra := none }
     rfl (by decide) (by decide) (by decide) (by decide) (by decide)⟩

/-- C4 counterexample: the decoded userinfo `bf-cfb:a:b` yields password `a`,
    not the full text `a:b` after the first colon. -/
theorem c4_counterexample :
    SSConfig.parse_sip002 "ss://YmYtY2ZiOmE6Yg@192.168.100.1:8888".data =
      .ok { host := Host.Ipv4 192 168 100 1, port := 8888, method := .BfCfb,
            password := "a".data, tag := none, extra := none } ∧
    ("a".data : Str) ≠ "a:b".data := by
  constructor
  · decide
  · decide

/-- C5 counterexample: the legacy blob decoding to `bf-cfb::p@192.168.100.1:8888`
    yields password `p`: the leading colon of the password is stripped, not
    kept verbatim. -/
theorem c5_counterexample :
    SSConfig.parse_legacy_base64 "ss://YmYtY2ZiOjpwQDE5Mi4xNjguMTAwLjE6ODg4OA".data =
      .ok { host := Host.Ipv4 192 168 100 1, port := 8888, method := .BfCfb,
            password := "p".data, tag := none, extra := none } ∧
    ("p".data : Str) ≠ ":p".data := by
  constructor
  · decide
  · decide

/-- C7 counterexample: the legacy round-trip fails for a valid config whose
    password starts with a colon. -/
theorem c7_counterexample :
    SSConfig.parse_legacy_base64 (SSConfig.to_legacy_base64_encoded
      { host := Host.Ipv4 192 168 100 1, port := 8888, method := .BfCfb,
        password := ":p".data, tag := none, extra := none }) =
      .ok { host := Host.Ipv4 192 168 100 1, port := 8888, method := .BfCfb,
            password := "p".data, tag := none, extra := none } ∧
    ("p".data : Str) ≠ ":p".data := by
  constructor
  · decide
  · decide

/-- C7 (amended): the legacy round-trip
    `parse_legacy_base64 (to_legacy_base64_encoded c) = Ok c` holds for every
    config whose `extra` is absent, whose port fits in 16 bits, whose host text
    re-parses to the host (canonical hosts), whose password does not start with
    `:`, whose base64 blob happens to contain no `/`, and whose tag is not the
    empty string. -/
theorem c7_amended_legacy_roundtrip (c : SSConfig)
    (hextra : c.extra = none) (hport : c.port < 65536)
    (hhost : Host.parse (get_uri_formatted_host c.host) = some c.host)
    (hpwhead : c.password.head? ≠ some ':')
    (hslash : '/' ∉ trimEndCh '=' (b64Encode (utf8Encode
      (c.method.as_str ++ ':' :: (c.password ++ '@' ::
        (get_uri_formatted_host c.host ++ ':' :: natToChars c.port))))))
    (htag : c.tag ≠ some []) :
    SSConfig.parse_legacy_base64 (SSConfig.to_legacy_base64_encoded c) = .ok c := by
  obtain ⟨chost, cport, cmethod, cpassword, ctag, cextra⟩ := c
  dsimp only at hextra hport hhost hpwhead hslash htag
  subst hextra
  have hhostSome : (Host.parse (get_uri_formatted_host chost)).isSome := by
    rw [hhost]
    rfl
  have hhc := host_chars _ hhostSome
  have hhne : get_uri_formatted_host chost ≠ [] := (host_parse_facts _ hhostSome).1
  have hpd : ∀ x ∈ natToChars cport, '0' ≤ x ∧ x ≤ '9' := natToChars_digits cport
  have hpne := natToChars_ne_nil cport
  have hbytes : ∀ b ∈ utf8Encode (cmethod.as_str ++ ':' :: (cpassword ++ '@' ::
      (get_uri_formatted_host chost ++ ':' :: natToChars cport))), b < 256 :=
    utf8Encode_lt256 _
  have hBchars : ∀ x ∈ trimEndCh '=' (b64Encode (utf8Encode (cmethod.as_str ++ ':' ::
      (cpassword ++ '@' :: (get_uri_formatted_host chost ++ ':' :: natToChars cport))))),
      ∃ n, n < 64 ∧ x = b64Char n := by
    rw [trimEnd_b64Encode _ hbytes]
    exact mem_b64EncodeNoPad _ hbytes
  have hBfacts : ∀ x ∈ trimEndCh '=' (b64Encode (utf8Encode (cmethod.as_str ++ ':' ::
      (cpassword ++ '@' :: (get_uri_formatted_host chost ++ ':' :: natToChars cport))))),
      x ≠ '/' ∧ x ≠ '?' ∧ x ≠ '#' ∧ x ≠ '@' ∧ x ≠ ':' ∧ x ≠ '[' ∧
      forbiddenOpaqueChar x = false := by
    intro x hx
    obtain ⟨n, hn, hxe⟩ := hBchars x hx
    have hb := b64Char_facts n hn
    subst hxe
    exact ⟨fun he => hslash (he ▸ hx), hb.2.2.2.2.1, hb.2.2.2.1, hb.2.1, hb.2.2.1,
      hb.2.2.2.2.2.1, hb.2.2.2.2.2.2⟩
  have hnoat : '@' ∉ get_uri_formatted_host chost ++ ':' :: natToChars cport := by
    intro hm
    simp only [List.mem_append, List.mem_cons] at hm
    rcases hm with h | h | h <;>
      first
        | exact (hhc _ h).1 rfl
        | exact absurd h (by decide)
        | exact (digit_char_facts _ (hpd _ h).1 (hpd _ h).2).2.1 rfl
  have hheadREST : (cpassword ++ '@' :: (get_uri_formatted_host chost ++ ':' ::
      natToChars cport)).head? ≠ some ':' := by
    cases cpassword with
    | nil =>
      simp only [List.nil_append, List.head?_cons, ne_eq, Option.some.injEq]
      decide
    | cons a t =>
      simp only [List.head?_cons, ne_eq, Option.some.injEq] at hpwhead
      simp only [List.cons_append, List.head?_cons, ne_eq, Option.some.injEq]
      exact hpwhead
  have h1 : b64Decode (trimEndCh '=' (b64Encode (utf8Encode (cmethod.as_str ++ ':' ::
      (cpassword ++ '@' :: (get_uri_formatted_host chost ++ ':' :: natToChars cport)))))) =
      some (utf8Encode (cmethod.as_str ++ ':' :: (cpassword ++ '@' ::
        (get_uri_formatted_host chost ++ ':' :: natToChars cport)))) :=
    b64Decode_encode _ hbytes
  have h2 := utf8Decode_encode (cmethod.as_str ++ ':' :: (cpassword ++ '@' ::
      (get_uri_formatted_host chost ++ ':' :: natToChars cport)))
  have hgl : (cmethod.as_str ++ ':' :: (cpassword ++ '@' ::
      (get_uri_formatted_host chost ++ ':' :: natToChars cport))).getLast? =
      (natToChars cport).getLast? := by
    rw [show cmethod.as_str ++ ':' :: (cpassword ++ '@' ::
        (get_uri_formatted_host chost ++ ':' :: natToChars cport)) =
      (cmethod.as_str ++ ':' :: (cpassword ++ '@' ::
        (get_uri_formatted_host chost ++ [':']))) ++ natToChars cport by simp]
    exact List.getLast?_append_of_ne_nil _ hpne
  have h3 : trimEndCh '=' (cmethod.as_str ++ ':' :: (cpassword ++ '@' ::
      (get_uri_formatted_host chost ++ ':' :: natToChars cport))) =
      cmethod.as_str ++ ':' :: (cpassword ++ '@' ::
        (get_uri_formatted_host chost ++ ':' :: natToChars cport)) := by
    apply trimEndCh_of_getLast_ne
    rw [hgl]
    obtain ⟨d, hd, hd1, hd2⟩ := getLast_digits cport
    rw [hd]
    intro he
    exact (digit_char_facts d hd1 hd2).2.2.2.2.2.2.2.1 (Option.some_inj.mp he)
  have h4 : findIdxCh ':' (cmethod.as_str ++ ':' :: (cpassword ++ '@' ::
      (get_uri_formatted_host chost ++ ':' :: natToChars cport))) =
      some cmethod.as_str.length :=
    findIdxCh_append_cons ':' _ _ (method_as_str_no_colon cmethod)
  have h5 : (cmethod.as_str ++ ':' :: (cpassword ++ '@' ::
      (get_uri_formatted_host chost ++ ':' :: natToChars cport))).take
        cmethod.as_str.length = cmethod.as_str :=
    take_append_cons _ _ _
  have h7 : (cmethod.as_str ++ ':' :: (cpassword ++ '@' ::
      (get_uri_formatted_host chost ++ ':' :: natToChars cport))).drop
        cmethod.as_str.length = ':' :: (cpassword ++ '@' ::
        (get_uri_formatted_host chost ++ ':' :: natToChars cport)) :=
    List.drop_left _ _
  have h8 : trimStartCh ':' (':' :: (cpassword ++ '@' ::
      (get_uri_formatted_host chost ++ ':' :: natToChars cport))) =
      cpassword ++ '@' :: (get_uri_formatted_host chost ++ ':' :: natToChars cport) := by
    rw [trimStartCh_cons_self]
    exact trimStartCh_of_head_ne _ _ hheadREST
  have h9 : rfindIdxCh '@' (cpassword ++ '@' ::
      (get_uri_formatted_host chost ++ ':' :: natToChars cport)) =
      some cpassword.length :=
    rfindIdxCh_append_cons '@' _ _ hnoat
  have h10 : (cpassword ++ '@' :: (get_uri_formatted_host chost ++ ':' ::
      natToChars cport)).take cpassword.length = cpassword :=
    take_append_cons _ _ _
  have h11 : (cpassword ++ '@' :: (get_uri_formatted_host chost ++ ':' ::
      natToChars cport)).drop cpassword.length = '@' ::
      (get_uri_formatted_host chost ++ ':' :: natToChars cport) :=
    List.drop_left _ _
  have h12 : trimStartCh '@' ('@' :: (get_uri_formatted_host chost ++ ':' ::
      natToChars cport)) = get_uri_formatted_host chost ++ ':' :: natToChars cport := by
    rw [trimStartCh_cons_self]
    apply trimStartCh_of_head_ne
    rw [head?_append_of_ne_nil _ _ hhne]
    exact host_head_ne _ hhostSome
  have h13 : rfindIdxCh ':' (get_uri_formatted_host chost ++ ':' :: natToChars cport) =
      some (get_uri_formatted_host chost).length :=
    rfindIdxCh_append_cons ':' _ _
      (fun hm => (digit_char_facts _ (hpd _ hm).1 (hpd _ hm).2).2.2.1 rfl)
  have h14 : (get_uri_formatted_host chost ++ ':' :: natToChars cport).drop
      (get_uri_formatted_host chost).length = ':' :: natToChars cport :=
    List.drop_left _ _
  have h15 : trimStartCh ':' (':' :: natToChars cport) = natToChars cport := by
    rw [trimStartCh_cons_self]
    apply trimStartCh_of_head_ne
    cases hp : natToChars cport with
    | nil => simp
    | cons a t =>
      have ha : a ∈ natToChars cport := by
        rw [hp]
        simp
      simp only [List.head?_cons, ne_eq, Option.some.injEq]
      intro he
      subst he
      exact (digit_char_facts _ (hpd _ ha).1 (hpd _ ha).2).2.2.1 rfl
  have h16 : parseU16 (natToChars cport) = some cport := parseU16_natToChars cport hport
  have h17 : (get_uri_formatted_host chost ++ ':' :: natToChars cport).take
      (get_uri_formatted_host chost).length = get_uri_formatted_host chost :=
    take_append_cons _ _ _
  cases ctag with
  | none =>
    have hform : SSConfig.to_legacy_base64_encoded
        ⟨chost, cport, cmethod, cpassword, none, none⟩ =
        's' :: 's' :: ':' :: ('/' :: '/' ::
          (trimEndCh '=' (b64Encode (utf8Encode (cmethod.as_str ++ ':' ::
            (cpassword ++ '@' :: (get_uri_formatted_host chost ++ ':' ::
              natToChars cport))))) ++
            Option.elim (none : Option Str) [] (fun fb => '#' :: fb))) := by
      simp only [SSConfig.to_legacy_base64_encoded, SSConfig.get_hash, Option.elim]
      simp [show ("ss://".data : Str) = 's' :: 's' :: ':' :: '/' :: '/' :: [] from rfl]
    have hu : urlParse (SSConfig.to_legacy_base64_encoded
        ⟨chost, cport, cmethod, cpassword, none, none⟩) =
        some { scheme := "ss".data, username := [], userinfoPassword := none,
               hostStr := some (trimEndCh '=' (b64Encode (utf8Encode
                 (cmethod.as_str ++ ':' :: (cpassword ++ '@' ::
                   (get_uri_formatted_host chost ++ ':' :: natToChars cport)))))),
               port := none, path := [], query := none, fragment := none } := by
      rw [hform, urlParse_ss_shape]
      exact urlParseAuthority_opaque _ none hBfacts (fun fb hfb => by cases hfb)
    rw [parse_legacy_eq _ _ hu]
    simp only [validate_protocol_ss
      { scheme := "ss".data, username := [], userinfoPassword := none,
        hostStr := some (trimEndCh '=' (b64Encode (utf8Encode
          (cmethod.as_str ++ ':' :: (cpassword ++ '@' ::
            (get_uri_formatted_host chost ++ ':' :: natToChars cport)))))),
        port := none, path := [], query := none, fragment := none } rfl]
    simp only [h1, h2, h3, h4, h5, method_tryFrom_as_str cmethod, h7, h8, h9, h10, h11,
      h12, h13, h14, h15, h16, h17, hhost]
    simp [SSConfig.extract_hash]
  | some t =>
    have htne : t ≠ [] := fun he => htag (by rw [he])
    have hform : SSConfig.to_legacy_base64_encoded
        ⟨chost, cport, cmethod, cpassword, some t, none⟩ =
        's' :: 's' :: ':' :: ('/' :: '/' ::
          (trimEndCh '=' (b64Encode (utf8Encode (cmethod.as_str ++ ':' ::
            (cpassword ++ '@' :: (get_uri_formatted_host chost ++ ':' ::
              natToChars cport))))) ++
            Option.elim (some (pctEncodeBytes (utf8Encode t))) [] (fun fb => '#' :: fb))) := by
      simp only [SSConfig.to_legacy_base64_encoded, SSConfig.get_hash, Option.elim]
      rw [if_pos htne]
      simp [show ("ss://".data : Str) = 's' :: 's' :: ':' :: '/' :: '/' :: [] from rfl]
    have hu : urlParse (SSConfig.to_legacy_base64_encoded
        ⟨chost, cport, cmethod, cpassword, some t, none⟩) =
        some { scheme := "ss".data, username := [], userinfoPassword := none,
               hostStr := some (trimEndCh '=' (b64Encode (utf8Encode
                 (cmethod.as_str ++ ':' :: (cpassword ++ '@' ::
                   (get_uri_formatted_host chost ++ ':' :: natToChars cport)))))),
               port := none, path := [], query := none,
               fragment := some (pctEncodeBytes (utf8Encode t)) } := by
      rw [hform, urlParse_ss_shape]
      exact urlParseAuthority_opaque _ (some (pctEncodeBytes (utf8Encode t))) hBfacts
        (fun fb hfb => by
          injection hfb with hfb2
          subst hfb2
          intro hm
          exact (mem_pctEncodeBytes _ (utf8Encode_lt256 t) '#' hm).1 rfl)
    rw [parse_legacy_eq _ _ hu]
    simp only [validate_protocol_ss
      { scheme := "ss".data, username := [], userinfoPassword := none,
        hostStr := some (trimEndCh '=' (b64Encode (utf8Encode
          (cmethod.as_str ++ ':' :: (cpassword ++ '@' ::
            (get_uri_formatted_host chost ++ ':' :: natToChars cport)))))),
        port := none, path := [], query := none,
        fragment := some (pctEncodeBytes (utf8Encode t)) } rfl]
    simp only [h1, h2, h3, h4, h5, method_tryFrom_as_str cmethod, h7, h8, h9, h10, h11,
      h12, h13, h14, h15, h16, h17, hhost]
    simp [SSConfig.extract_hash, tag_roundtrip]

/-- Witness for the amended C7 at a concrete IPv4 config with a tag. -/
theorem c7_amended_legacy_roundtrip_witness :
    Host.parse (get_uri_formatted_host (Host.Ipv4 192 168 100 1)) =
      some (Host.Ipv4 192 168 100 1) ∧
    ("test".data : Str).head? ≠ some ':' ∧
    '/' ∉ trimEndCh '=' (b64Encode (utf8Encode (Method.BfCfb.as_str ++ ':' ::
      ("test".data ++ '@' :: (get_uri_formatted_host (Host.Ipv4 192 168 100 1) ++ ':' ::
        natToChars 8888))))) ∧
    SSConfig.parse_legacy_base64 (SSConfig.to_legacy_base64_encoded
      { host := Host.Ipv4 192 168 100 1, port := 8888, method := .BfCfb,
        password := "test".data, tag := some "Foo Bar".data, extra := none }) =
      .ok { host := Host.Ipv4 192 168 100 1, port := 8888, method := .BfCfb,
            password := "test".data, tag := some "Foo Bar".data, extra := none } :=
  ⟨by decide, by decide, by decide,
   c7_amended_legacy_roundtrip
     { host := Host.Ipv4 192 168 100 1, port := 8888, method := .BfCfb,
       password := "test".data, tag := some "Foo Bar".data, extra := none }
     rfl (by decide) (by decide) (by decide) (by decide) (by decide)⟩

/-- C8 counterexample: a structured-format userinfo that fails base64 decoding
    produces `InvalidPassword`, not `InvalidUrl`. -/
theorem c8_counterexample :
    SSConfig.parse_sip002 "ss://!@192.168.100.1:8888".data =
      .error .InvalidPassword ∧
    SSParseError.InvalidPassword ≠ SSParseError.InvalidUrl := by
  constructor
  · decide
  · decide

/-- C9 counterexample: a fragment form value containing `+` is returned with
    the `+` decoded to a space, not merely percent-decoded. -/
theorem c9_counterexample :
    SIP008Config.parse "ssconf://h#httpMethod=a+b".data =
      .ok { location := "https://h:443".data, cert_finger_print := none,
            http_method := some "a b".data } ∧
    ("a b".data : Str) ≠ "a+b".data := by
  constructor
  · decide
  · decide

/-- C8 (amended): an internal base64/UTF-8 decode failure yields
    `InvalidPassword` in the structured codec (not `InvalidUrl` as claimed)
    and `InvalidUrl` in the legacy codec. -/
theorem c8_amended_sub_decode_errors :
    (∀ (s : Str) (u : UrlModel),
      urlParse (SSConfig.remove_unsafe_padding s) = some u →
      "ss".data.isPrefixOf u.scheme →
      (∃ h, SSConfig.extract_host u = .ok h) →
      (∃ p, SSConfig.extract_port u = .ok p) →
      (b64Decode u.username = none ∨
        ∃ bs, b64Decode u.username = some bs ∧ utf8Decode bs = none) →
      SSConfig.parse_sip002 s = .error .InvalidPassword) ∧
    (∀ (s : Str) (u : UrlModel) (hs : Str),
      urlParse s = some u →
      "ss".data.isPrefixOf u.scheme →
      u.hostStr = some hs →
      (b64Decode hs = none ∨ ∃ bs, b64Decode hs = some bs ∧ utf8Decode bs = none) →
      SSConfig.parse_legacy_base64 s = .error .InvalidUrl) := by
  constructor
  · intro s u hu hsch hhost hport hdec
    obtain ⟨hh, hhe⟩ := hhost
    obtain ⟨pp, hpe⟩ := hport
    have hmp : SSConfig.extract_method_and_password u.username =
        .error .InvalidPassword := by
      rcases hdec with hd | ⟨bs, hd1, hd2⟩
      · simp only [SSConfig.extract_method_and_password, hd]
      · simp only [SSConfig.extract_method_and_password, hd1, hd2]
    simp only [SSConfig.parse_sip002]
    rw [hu]
    simp only [SSConfig.validate_protocol, hsch, if_true, ite_true]
    rw [hhe, hpe, hmp]
  · intro s u hs hu hsch hhost hdec
    rw [parse_legacy_eq s u hu]
    simp only [SSConfig.validate_protocol, hsch, if_true, ite_true]
    rcases hdec with hd | ⟨bs, hd1, hd2⟩
    · simp only [hhost, hd]
    · simp only [hhost, hd1, hd2]

/-- Witness for C8: a base64-invalid structured userinfo and a base64-invalid
    legacy host blob. -/
theorem c8_amended_sub_decode_errors_witness :
    SSConfig.parse_sip002 "ss://!@192.168.100.1:8888".data = .error .InvalidPassword ∧
    SSConfig.parse_legacy_base64 "ss://!!".data = .error .InvalidUrl :=
  ⟨c8_amended_sub_decode_errors.1 _
    { scheme := "ss".data, username := "!".data, userinfoPassword := none,
      hostStr := some "192.168.100.1".data, port := some 8888, path := [],
      query := none, fragment := none }
    (by decide) (by decide) ⟨Host.Ipv4 192 168 100 1, by decide⟩ ⟨8888, by decide⟩
    (Or.inl (by decide)),
   c8_amended_sub_decode_errors.2 _
    { scheme := "ss".data, username := [], userinfoPassword := none,
      hostStr := some "!!".data, port := none, path := [],
      query := none, fragment := none } "!!".data
    (by decide) (by decide) rfl (Or.inl (by decide))⟩

/-- C4 (amended): the structured codec splits the decoded userinfo on every
    colon; the password is the maximal colon-free prefix of the text after the
    first colon (not everything after it), and a colon-free decoded text gives
    `InvalidPassword` only when it happens to be a canonical method token,
    `InvalidMethod` otherwise. -/
theorem c4_amended_password_extraction (input : Str) (bs : List Nat) (t : Str)
    (hb : b64Decode input = some bs) (hu : utf8Decode bs = some t) :
    (':' ∈ t →
      SSConfig.extract_method_and_password input =
        match Method.tryFrom (t.takeWhile (· ≠ ':')) with
        | .ok m => .ok (m, ((t.dropWhile (· ≠ ':')).drop 1).takeWhile (· ≠ ':'))
        | .error _ => .error .InvalidMethod) ∧
    (':' ∉ t →
      SSConfig.extract_method_and_password input =
        match Method.tryFrom t with
        | .ok _ => .error .InvalidPassword
        | .error _ => .error .InvalidMethod) := by
  constructor
  · intro hmem
    simp only [SSConfig.extract_method_and_password, hb, hu]
    rw [splitCh_of_mem ':' t hmem]
    simp only [List.head?_cons]
    cases hm : Method.tryFrom (t.takeWhile (· ≠ ':')) with
    | error e => rfl
    | ok m =>
      have hget : (t.takeWhile (· ≠ ':') ::
          splitCh ':' ((t.dropWhile (· ≠ ':')).drop 1)).get? 1 =
          some (((t.dropWhile (· ≠ ':')).drop 1).takeWhile (· ≠ ':')) := by
        rw [List.get?_cons_succ, List.get?_zero]
        exact splitCh_head ':' _
      rw [hget]
  · intro hmem
    simp only [SSConfig.extract_method_and_password, hb, hu]
    rw [splitCh_of_not_mem ':' t hmem]
    simp only [List.head?_cons]
    cases hm : Method.tryFrom t with
    | error e => rfl
    | ok m => rfl

/-- Witness for C4 on the decoded text `bf-cfb:a:b`. -/
theorem c4_amended_password_extraction_witness :
    SSConfig.extract_method_and_password "YmYtY2ZiOmE6Yg".data =
      match Method.tryFrom (("bf-cfb:a:b".data).takeWhile (· ≠ ':')) with
      | .ok m => .ok (m, ((("bf-cfb:a:b".data).dropWhile (· ≠ ':')).drop 1).takeWhile
          (· ≠ ':'))
      | .error _ => .error .InvalidMethod :=
  (c4_amended_password_extraction "YmYtY2ZiOmE6Yg".data
    (utf8Encode "bf-cfb:a:b".data) "bf-cfb:a:b".data (by decide) (by decide)).1
    (by decide)

/-- C6: adding trailing `=` padding before the `@` of a structured URI does
    not change the parse result, and the `=@`-triggered normalization is the
    identity on any string without the substring `=@`. -/
theorem c6_padding_tolerance :
    (∀ (u r : Str) (k : Nat), 0 < k → '=' ∉ u → containsEqAt r = false →
      r.head? ≠ some '=' → r.getLast? ≠ some '=' →
      SSConfig.parse_sip002 ("ss://".data ++ u ++ (List.replicate k '=' ++ '@' :: r)) =
        SSConfig.parse_sip002 ("ss://".data ++ u ++ '@' :: r)) ∧
    (∀ s, containsEqAt s = false → SSConfig.remove_unsafe_padding s = s) := by
  have hpart2 : ∀ s, containsEqAt s = false → SSConfig.remove_unsafe_padding s = s := by
    intro s h
    rw [SSConfig.remove_unsafe_padding, if_neg (by simp [h])]
  refine ⟨?_, hpart2⟩
  intro u r k hk hu hr hrh hrl
  obtain ⟨k0, rfl⟩ : ∃ k0, k = k0 + 1 := ⟨k - 1, by omega⟩
  have hA : '=' ∉ "ss://".data ++ u := by
    intro hm
    rcases List.mem_append.mp hm with hm | hm
    · revert hm; decide
    · exact hu hm

  have hcontains : containsEqAt ("ss://".data ++ u ++
      (List.replicate (k0 + 1) '=' ++ '@' :: r)) = true :=
    containsEqAt_append_right _ _ (containsEqAt_pad k0 r)
  have hsplit := splitEqAt_main ("ss://".data ++ u) k0 r hA hr
  have htrim1 : trimCh '=' ("ss://".data ++ u ++ List.replicate k0 '=') =
      "ss://".data ++ u := by
    rw [trimCh, trimEndCh_append_replicate, trimEndCh_of_getLast_ne, trimStartCh_of_head_ne]
    · cases u with
      | nil => decide
      | cons a t => simp
    · rw [List.getLast?_append]
      cases hul : u.getLast? with
      | none =>
        have : u = [] := by
          cases u with
          | nil => rfl
          | cons a t => simp [List.getLast?_eq_getLast] at hul
        subst this
        decide
      | some x =>
        have hx : x ∈ u := by
          cases u with
          | nil => cases hul
          | cons a t =>
            rw [List.getLast?_eq_getLast (a :: t) (by simp)] at hul
            have hm := List.getLast_mem (l := a :: t) (by simp)
            rw [Option.some.injEq] at hul
            exact hul ▸ hm
        simp only [hul, Option.or_some, ne_eq, Option.some.injEq]
        intro he
        exact hu (he ▸ hx)
  have htrim2 : trimCh '=' r = r := trimCh_of_ends '=' r hrh hrl
  have hrem1 : SSConfig.remove_unsafe_padding ("ss://".data ++ u ++
      (List.replicate (k0 + 1) '=' ++ '@' :: r)) = "ss://".data ++ u ++ '@' :: r := by
    rw [SSConfig.remove_unsafe_padding, if_pos hcontains, hsplit]
    simp only [List.map_cons, List.map_nil, htrim1, htrim2]
    rw [joinCh_pair]
  have hrem2 : SSConfig.remove_unsafe_padding ("ss://".data ++ u ++ '@' :: r) =
      "ss://".data ++ u ++ '@' :: r :=
    hpart2 _ (containsEqAt_boundary _ _ hA hr)
  simp only [SSConfig.parse_sip002]
  rw [hrem1, hrem2]

/-- Witness for C6 with two `=` padding characters. -/
theorem c6_padding_tolerance_witness :
    SSConfig.parse_sip002
        ("ss://".data ++ "YWVzLTEyOC1nY206dGVzdA".data ++
          (List.replicate 2 '=' ++ '@' :: "192.168.100.1:8888".data)) =
      SSConfig.parse_sip002
        ("ss://".data ++ "YWVzLTEyOC1nY206dGVzdA".data ++
          '@' :: "192.168.100.1:8888".data) :=
  c6_padding_tolerance.1 "YWVzLTEyOC1nY206dGVzdA".data "192.168.100.1:8888".data 2
    (by decide) (by decide) (by decide) (by decide) (by decide)

/-- C9 (amended): a `ssconf` URI with a host resolves to
    `https://host:(explicit port or 443)path`, and the certificate-fingerprint
    and HTTP-method hints are the form-urlencoded-decoded (percent-decoding
    plus `+` to space) values of the fragment's `certFp` and `httpMethod`
    parameters, absent parameters giving `none`. -/
theorem c9_amended_redirect (s : Str) (u : UrlModel) (h : Str)
    (hu : urlParse s = some u)
    (hsch : "ssconf".data.isPrefixOf u.scheme)
    (hh : u.hostStr = some h) :
    SIP008Config.parse s = .ok
      { location := "https://".data ++ h ++ ':' :: natToChars (u.port.getD 443) ++ u.path,
        cert_finger_print := lookupLast "certFp".data (formParse (u.fragment.getD [])),
        http_method := lookupLast "httpMethod".data (formParse (u.fragment.getD [])) } := by
  have hss : "ss".data.isPrefixOf u.scheme := by
    rw [List.isPrefixOf_iff_prefix] at hsch ⊢
    obtain ⟨t, ht⟩ := hsch
    exact ⟨'c' :: 'o' :: 'n' :: 'f' :: t, by rw [← ht]; rfl⟩
  simp only [SIP008Config.parse]
  rw [hu]
  simp only [SIP008Config.validate_protocol, hsch, if_true, ite_true]
  rw [hh, portOrKnownDefault_ss u hss]

/-- Witness for C9 on a concrete redirect URI. -/
theorem c9_amended_redirect_witness :
    SIP008Config.parse "ssconf://my.domain.com/secret/long/path#certFp=AA:BB&httpMethod=POST".data =
      .ok { location := "https://".data ++ "my.domain.com".data ++
              ':' :: natToChars ((none : Option Nat).getD 443) ++ "/secret/long/path".data,
            cert_finger_print := lookupLast "certFp".data
              (formParse ((some "certFp=AA:BB&httpMethod=POST".data).getD [])),
            http_method := lookupLast "httpMethod".data
              (formParse ((some "certFp=AA:BB&httpMethod=POST".data).getD [])) } :=
  c9_amended_redirect _
    { scheme := "ssconf".data, username := [], userinfoPassword := none,
      hostStr := some "my.domain.com".data, port := none, path := "/secret/long/path".data,
      query := none, fragment := some "certFp=AA:BB&httpMethod=POST".data }
    "my.domain.com".data (by decide) (by decide) rfl

/-- C5 (amended): when the legacy blob decodes to `method ':' remainder`, the
    password of a successful parse is everything strictly before the last `@`
    of the remainder, kept verbatim except that the leading run of `:`
    characters after the method separator is stripped (not kept, as the claim
    stated). -/
theorem c5_amended_legacy_password (s : Str) (u : UrlModel) (hs0 : Str)
    (bs : List Nat) (t0 : Str)
    (hu : urlParse s = some u)
    (hhost : u.hostStr = some hs0)
    (hb : b64Decode hs0 = some bs)
    (hut : utf8Decode bs = some t0) :
    ∀ c, SSConfig.parse_legacy_base64 s = .ok c →
      c.password = beforeLastCh '@'
        ((((trimEndCh '=' t0).dropWhile (· ≠ ':')).drop 1).dropWhile (· = ':')) := by
  intro c hc
  rw [parse_legacy_eq s u hu] at hc
  split at hc
  · exact Except.noConfusion hc
  · split at hc
    · exact Except.noConfusion hc
    · rename_i encoded heqHost
      rw [hhost, Option.some.injEq] at heqHost
      subst heqHost
      split at hc
      · exact Except.noConfusion hc
      · rename_i decoded heqB64
        rw [hb, Option.some.injEq] at heqB64
        subst heqB64
        split at hc
        · exact Except.noConfusion hc
        · rename_i ds0 heqUtf
          rw [hut, Option.some.injEq] at heqUtf
          subst heqUtf
          split at hc
          · exact Except.noConfusion hc
          · rename_i ci heqCi
            split at hc
            · exact Except.noConfusion hc
            · rename_i m heqM
              split at hc
              · exact Except.noConfusion hc
              · rename_i ai heqAi
                split at hc
                · exact Except.noConfusion hc
                · rename_i pi2 heqPi
                  split at hc
                  · exact Except.noConfusion hc
                  · rename_i port heqPu
                    split at hc
                    · exact Except.noConfusion hc
                    · rename_i host heqHp
                      rw [Except.ok.injEq] at hc
                      rw [← hc]
                      have hdropci : (trimEndCh '=' t0).drop ci =
                          (trimEndCh '=' t0).dropWhile (· ≠ ':') :=
                        (take_findIdxCh ':' _ ci heqCi).2
                      obtain ⟨rest, hrest⟩ :=
                        dropWhile_head_of_findIdxCh ':' (trimEndCh '=' t0) ci heqCi
                      have hrem : trimStartCh ':' ((trimEndCh '=' t0).drop ci) =
                          ((((trimEndCh '=' t0).dropWhile (· ≠ ':')).drop 1).dropWhile
                            (· = ':')) := by
                        rw [hdropci, hrest, trimStartCh]
                        simp [List.dropWhile_cons]
                      show (trimStartCh ':' ((trimEndCh '=' t0).drop ci)).take ai = _
                      rw [hrem] at heqAi ⊢
                      exact take_rfindIdxCh '@' _ ai heqAi

/-- Witness for C5 on the blob decoding to `bf-cfb::p@192.168.100.1:8888`. -/
theorem c5_amended_legacy_password_witness :
    ({ host := Host.Ipv4 192 168 100 1, port := 8888, method := Method.BfCfb,
       password := "p".data, tag := none, extra := none } : SSConfig).password =
      beforeLastCh '@'
        ((((trimEndCh '=' "bf-cfb::p@192.168.100.1:8888".data).dropWhile
          (· ≠ ':')).drop 1).dropWhile (· = ':')) :=
  c5_amended_legacy_password "ss://YmYtY2ZiOjpwQDE5Mi4xNjguMTAwLjE6ODg4OA".data
    { scheme := "ss".data, username := [], userinfoPassword := none,
      hostStr := some "YmYtY2ZiOjpwQDE5Mi4xNjguMTAwLjE6ODg4OA".data, port := none,
      path := [], query := none, fragment := none }
    "YmYtY2ZiOjpwQDE5Mi4xNjguMTAwLjE6ODg4OA".data
    (utf8Encode "bf-cfb::p@192.168.100.1:8888".data)
    "bf-cfb::p@192.168.100.1:8888".data
    (by decide) rfl (by decide) (by decide) _ (by decide)

end SSURI
